import Mathlib

/-!
# Verification of the moshell semantic-analysis core

A shallow embedding, in Lean 4, of the parts of the moshell compiler and
analyzer that the specification's claims are about:

* `src/compiler/src/bytecode.rs` — the `Bytecode` buffer, placeholders and
  the `Instructions` wrapper;
* `src/compiler/src/constant_pool.rs` — the deduplicating constant pool;
* `src/compiler/src/lib.rs` — `compile_chunk_code` and `resolve_captures`;
* `src/compiler/src/emit.rs`, `src/compiler/src/emit/jump.rs` — the emission
  state and loop/continue/break emission;
* `src/analyzer/src/steps/typing.rs` and `steps/typing/function.rs` — type
  ascription of literals, binary operators, `if`, loops, `continue`/`break`
  and programmatic calls;
* `src/analyzer/src/steps/collect.rs` — the `use`-directive acceptance rule
  of the symbol collector.

Machine integers are modelled as `Nat` with an explicit `% 2^32` at the
places where the Rust code performs an `as u32` cast.  Rust functions that
append diagnostics to a `&mut Vec<Diagnostic>` are modelled as functions
returning the list of diagnostics they append (their "delta"); the caller
appends deltas in execution order, so list order matches emission order.
-/

/-- `2^32`, the modulus of `u32` arithmetic. -/
def u32_size : Nat := 4294967296

/-- Big-endian byte encoding on `n` bytes, the model of Rust's
`to_be_bytes` for a value known to fit in `n` bytes
(least-significant byte last). -/
def to_be_bytes : Nat → Nat → List Nat
  | 0, _ => []
  | n + 1, v => to_be_bytes n (v / 256) ++ [v % 256]

theorem to_be_bytes_length (n v : Nat) : (to_be_bytes n v).length = n := by
  induction n generalizing v with
  | zero => rfl
  | succ n ih => simp [to_be_bytes, ih]

/-- The four-byte big-endian encoding of a `u32` value
(`u32::to_be_bytes` in `bytecode.rs`). -/
def u32_be (v : Nat) : List Nat := to_be_bytes 4 v

theorem u32_be_length (v : Nat) : (u32_be v).length = 4 :=
  to_be_bytes_length 4 v

/-- A placeholder for a jump target, `Placeholder` in `bytecode.rs`.
The Rust struct stores the position as a `u32` (`pos: u32`). -/
structure Placeholder where
  pos : Nat
  deriving Repr, DecidableEq

/-- `Bytecode` from `bytecode.rs`: the currently generated bytecode,
a flat byte vector. -/
structure Bytecode where
  bytes : List Nat
  deriving Repr, DecidableEq

namespace Bytecode

/-- `Bytecode::len`: returns the number of bytes. -/
def len (b : Bytecode) : Nat := b.bytes.length

/-- `Bytecode::emit_byte`: emits an unsigned byte. -/
def emit_byte (b : Bytecode) (value : Nat) : Bytecode :=
  ⟨b.bytes ++ [value]⟩

/-- `Bytecode::emit_u32`: emits an unsigned 32 bits integer
(its four big-endian bytes). -/
def emit_u32 (b : Bytecode) (value : Nat) : Bytecode :=
  ⟨b.bytes ++ u32_be value⟩

/-- `Bytecode::emit_int`: emits a signed 64 bits integer as its eight
big-endian bytes.  The two's-complement bit pattern of `value` is
`(value % 2^64)` viewed as a natural number. -/
def emit_int (b : Bytecode) (value : Int) : Bytecode :=
  ⟨b.bytes ++ to_be_bytes 8 (value % (2 ^ 64 : Nat)).toNat⟩

/-- `Bytecode::patch_u32_placeholder`: fills the four reserved bytes at the
placeholder's position with the big-endian bytes of `value`.  Rust copies
into `bytes[pos..pos+4]` (panicking when the range is out of bounds; the
theorems below therefore assume `pos + 4 ≤ len`). -/
def patch_u32_placeholder (b : Bytecode) (placeholder : Placeholder) (value : Nat) :
    Bytecode :=
  ⟨b.bytes.take placeholder.pos ++ u32_be value ++ b.bytes.drop (placeholder.pos + 4)⟩

/-- `Bytecode::emit_u32_placeholder`: expands the byte vector by four zero
bytes and returns the position of the placeholder (stored as `u32`, hence
the `% u32_size` cast). -/
def emit_u32_placeholder (b : Bytecode) : Placeholder × Bytecode :=
  (⟨b.len % u32_size⟩, ⟨b.bytes ++ [0, 0, 0, 0]⟩)

end Bytecode

/-- The `n`-byte slice of a byte list starting at `s`. -/
def list_slice (l : List Nat) (s n : Nat) : List Nat := (l.drop s).take n

theorem patch_len (b : Bytecode) (p : Placeholder) (v : Nat)
    (h : p.pos + 4 ≤ b.len) :
    (b.patch_u32_placeholder p v).len = b.len := by
  unfold Bytecode.patch_u32_placeholder Bytecode.len at *
  simp only [List.length_append, List.length_take, List.length_drop, u32_be_length]
  omega

theorem patch_get_lt (b : Bytecode) (p : Placeholder) (v : Nat) (i : Nat)
    (hp : p.pos + 4 ≤ b.len) (h : i < p.pos) :
    (b.patch_u32_placeholder p v).bytes[i]? = b.bytes[i]? := by
  unfold Bytecode.patch_u32_placeholder
  unfold Bytecode.len at hp
  have hlt : i < (List.take p.pos b.bytes).length := by
    simp only [List.length_take]
    omega
  rw [List.append_assoc, List.getElem?_append_left hlt, List.getElem?_take_of_lt h]

theorem patch_get_ge (b : Bytecode) (p : Placeholder) (v : Nat) (i : Nat)
    (hp : p.pos + 4 ≤ b.len) (h : p.pos + 4 ≤ i) :
    (b.patch_u32_placeholder p v).bytes[i]? = b.bytes[i]? := by
  unfold Bytecode.patch_u32_placeholder
  unfold Bytecode.len at hp
  have hlen : (List.take p.pos b.bytes ++ u32_be v).length = p.pos + 4 := by
    simp only [List.length_append, List.length_take, u32_be_length]
    omega
  rw [List.getElem?_append_right (by omega : (List.take p.pos b.bytes ++ u32_be v).length ≤ i)]
  rw [List.getElem?_drop]
  congr 1
  omega

theorem patch_slice (b : Bytecode) (p : Placeholder) (v : Nat)
    (h : p.pos + 4 ≤ b.len) :
    list_slice (b.patch_u32_placeholder p v).bytes p.pos 4 = u32_be v := by
  unfold Bytecode.patch_u32_placeholder Bytecode.len at *
  unfold list_slice
  have ht : (List.take p.pos b.bytes).length = p.pos := by
    simp only [List.length_take]
    omega
  rw [List.append_assoc, List.drop_append_eq_append_drop, ht, Nat.sub_self,
    List.drop_eq_nil_of_le (le_of_eq ht), List.nil_append, List.drop_zero,
    List.take_append_eq_append_take, u32_be_length,
    List.take_of_length_le (le_of_eq (u32_be_length v))]
  simp

/-- **C10.** `Bytecode::patch_u32_placeholder` overwrites exactly the four
reserved bytes at the recorded position with the big-endian encoding of the
given `u32` value; every other byte of the buffer and the buffer's total
length are unchanged. -/
theorem patch_u32_placeholder_frame (b : Bytecode) (p : Placeholder) (v : Nat)
    (h : p.pos + 4 ≤ b.len) :
    (b.patch_u32_placeholder p v).len = b.len ∧
      list_slice (b.patch_u32_placeholder p v).bytes p.pos 4 = u32_be v ∧
      (∀ i, i < p.pos ∨ p.pos + 4 ≤ i →
        (b.patch_u32_placeholder p v).bytes[i]? = b.bytes[i]?) :=
  ⟨patch_len b p v h, patch_slice b p v h, fun i hi =>
    hi.elim (patch_get_lt b p v i h) (patch_get_ge b p v i h)⟩

/-- Witness for C10 at a concrete buffer: patching position 1 of a six-byte
buffer with the value 258. -/
theorem patch_u32_placeholder_frame_witness :
    (Bytecode.patch_u32_placeholder ⟨[9, 9, 9, 9, 9, 7]⟩ ⟨1⟩ 258).len =
        (Bytecode.mk [9, 9, 9, 9, 9, 7]).len ∧
      list_slice (Bytecode.patch_u32_placeholder ⟨[9, 9, 9, 9, 9, 7]⟩ ⟨1⟩ 258).bytes 1 4 =
        u32_be 258 ∧
      (∀ i, i < 1 ∨ 1 + 4 ≤ i →
        (Bytecode.patch_u32_placeholder ⟨[9, 9, 9, 9, 9, 7]⟩ ⟨1⟩ 258).bytes[i]? =
          (Bytecode.mk [9, 9, 9, 9, 9, 7]).bytes[i]?) :=
  patch_u32_placeholder_frame ⟨[9, 9, 9, 9, 9, 7]⟩ ⟨1⟩ 258 (by decide)

/-! ## Constant pool (`constant_pool.rs`) -/

/-- `FunctionSignature` from `constant_pool.rs`. -/
structure FunctionSignature where
  name : Nat
  params : List Nat
  ret : Nat
  deriving Repr, DecidableEq

/-- `PoolConstant` from `constant_pool.rs`. -/
inductive PoolConstant where
  | string (s : String)
  | signature (sig : FunctionSignature)
  deriving Repr, DecidableEq

/-- `ConstantPool` from `constant_pool.rs`: an insertion-ordered,
deduplicating set of constants (`IndexSet<PoolConstant>`), modelled as the
list of constants in insertion order. -/
structure ConstantPool where
  constants : List PoolConstant
  deriving Repr, DecidableEq

/-- The position of the first occurrence of `c` in `l`, if present. -/
def pool_index_of (l : List PoolConstant) (c : PoolConstant) : Option Nat :=
  match l with
  | [] => none
  | x :: xs =>
    if x = c then some 0
    else (pool_index_of xs c).map (· + 1)

namespace ConstantPool

/-- `ConstantPool::insert` (via `IndexSet::insert_full`): inserts the
constant if not already contained, returning its pool identifier. -/
def insert (p : ConstantPool) (constant : PoolConstant) : Nat × ConstantPool :=
  match pool_index_of p.constants constant with
  | some i => (i, p)
  | none => (p.constants.length, ⟨p.constants ++ [constant]⟩)

/-- `ConstantPool::insert_string`: inserts if not already contained a string
in the constant pool, returning its pool identifier. -/
def insert_string (p : ConstantPool) (str : String) : Nat × ConstantPool :=
  p.insert (PoolConstant.string str)

end ConstantPool

theorem pool_index_of_append_self (l : List PoolConstant) (c : PoolConstant)
    (h : pool_index_of l c = none) :
    pool_index_of (l ++ [c]) c = some l.length := by
  induction l with
  | nil => simp [pool_index_of]
  | cons x xs ih =>
    by_cases hx : x = c
    · rw [pool_index_of] at h
      simp [hx] at h
    · rw [pool_index_of] at h
      simp only [hx, if_false] at h
      have h2 : pool_index_of xs c = none := by
        cases hpi : pool_index_of xs c with
        | none => rfl
        | some j =>
          rw [hpi] at h
          simp at h
      show pool_index_of (x :: (xs ++ [c])) c = some (x :: xs).length
      rw [pool_index_of]
      simp [hx, ih h2]

theorem insert_insert (p : ConstantPool) (c : PoolConstant) :
    ((p.insert c).2.insert c).1 = (p.insert c).1 ∧
      ((p.insert c).2.insert c).2 = (p.insert c).2 := by
  unfold ConstantPool.insert
  cases h : pool_index_of p.constants c with
  | some i => simp [h]
  | none => simp [h, pool_index_of_append_self p.constants c h]

theorem pool_index_of_mem (l : List PoolConstant) (c : PoolConstant)
    (h : c ∈ l) : (pool_index_of l c).isSome := by
  induction l with
  | nil => cases h
  | cons x xs ih =>
    unfold pool_index_of
    by_cases hx : x = c
    · simp [hx]
    · rcases List.mem_cons.1 h with h1 | h2
      · exact absurd h1.symm hx
      · simp only [hx, if_false]
        rcases Option.isSome_iff_exists.1 (ih h2) with ⟨i, hi⟩
        simp [hi]

theorem insert_nodup (p : ConstantPool) (c : PoolConstant)
    (h : p.constants.Nodup) : (p.insert c).2.constants.Nodup := by
  unfold ConstantPool.insert
  cases hidx : pool_index_of p.constants c with
  | some i => simpa using h
  | none =>
    simp only
    rw [List.nodup_append]
    refine ⟨h, List.nodup_singleton c, ?_⟩
    intro a ha hb
    rw [List.mem_singleton] at hb
    subst hb
    have := pool_index_of_mem p.constants a ha
    rw [hidx] at this
    cases this

/-- **C2.** Constant-pool insertion is idempotent: for every string and
every pool state, inserting the string a second time returns the same index
as the first insertion and leaves the pool unchanged; moreover insertion
preserves duplicate-freedom, so the pool is an ordered set deduplicating by
value. -/
theorem insert_string_idempotent (p : ConstantPool) (s : String) :
    ((p.insert_string s).2.insert_string s).1 = (p.insert_string s).1 ∧
      ((p.insert_string s).2.insert_string s).2 = (p.insert_string s).2 ∧
      (p.constants.Nodup → (p.insert_string s).2.constants.Nodup) :=
  ⟨(insert_insert p (PoolConstant.string s)).1,
   (insert_insert p (PoolConstant.string s)).2,
   insert_nodup p (PoolConstant.string s)⟩

/-- Witness for C2: inserting `"a"` twice into the pool `["b"]`. -/
theorem insert_string_idempotent_witness :
    (((ConstantPool.mk [PoolConstant.string "b"]).insert_string "a").2.insert_string "a").1 =
        ((ConstantPool.mk [PoolConstant.string "b"]).insert_string "a").1 ∧
      (((ConstantPool.mk [PoolConstant.string "b"]).insert_string "a").2.insert_string "a").2 =
        ((ConstantPool.mk [PoolConstant.string "b"]).insert_string "a").2 ∧
      ((ConstantPool.mk [PoolConstant.string "b"]).constants.Nodup →
        ((ConstantPool.mk [PoolConstant.string "b"]).insert_string "a").2.constants.Nodup) :=
  insert_string_idempotent ⟨[PoolConstant.string "b"]⟩ "a"

/-! ## Instructions and opcodes (`bytecode.rs`) -/

/-- `Opcode` from `bytecode.rs` (`#[repr(u8)]`, discriminants assigned in
declaration order starting at 0). -/
inductive Opcode where
  | PushInt | PushByte | PushFloat | PushString
  | GetByte | SetByte | GetQWord | SetQWord | GetRef | SetRef
  | Spawn | Invoke
  | PopByte | PopQWord | PopRef
  | IfJump | IfNotJump | Jump
  | Return
  | ConvertByteToInt | ConvertIntToStr | ConvertFloatToStr | ConvertIntToByte | Concat
  | BXor
  | IntAdd | IntSub | IntMul | IntDiv | IntMod
  | FloatAdd | FloatSub | FloatMul | FloatDiv
  | StringEqual
  | IntEqual | IntLessThan | IntLessOrEqual | IntGreaterThan | IntGreaterOrEqual
  | FloatEqual | FloatLessThan | FloatLessOrEqual | FloatGreaterThan | FloatGreaterOrEqual
  deriving Repr, DecidableEq

/-- The `u8` discriminant of an opcode (`Opcode as u8`). -/
def Opcode.code : Opcode → Nat
  | .PushInt => 0 | .PushByte => 1 | .PushFloat => 2 | .PushString => 3
  | .GetByte => 4 | .SetByte => 5 | .GetQWord => 6 | .SetQWord => 7
  | .GetRef => 8 | .SetRef => 9
  | .Spawn => 10 | .Invoke => 11
  | .PopByte => 12 | .PopQWord => 13 | .PopRef => 14
  | .IfJump => 15 | .IfNotJump => 16 | .Jump => 17
  | .Return => 18
  | .ConvertByteToInt => 19 | .ConvertIntToStr => 20 | .ConvertFloatToStr => 21
  | .ConvertIntToByte => 22 | .Concat => 23
  | .BXor => 24
  | .IntAdd => 25 | .IntSub => 26 | .IntMul => 27 | .IntDiv => 28 | .IntMod => 29
  | .FloatAdd => 30 | .FloatSub => 31 | .FloatMul => 32 | .FloatDiv => 33
  | .StringEqual => 34
  | .IntEqual => 35 | .IntLessThan => 36 | .IntLessOrEqual => 37
  | .IntGreaterThan => 38 | .IntGreaterOrEqual => 39
  | .FloatEqual => 40 | .FloatLessThan => 41 | .FloatLessOrEqual => 42
  | .FloatGreaterThan => 43 | .FloatGreaterOrEqual => 44

/-- `Instructions` from `bytecode.rs`: a `Bytecode` wrapper remembering the
offset where this instruction set starts. -/
structure Instructions where
  bytecode : Bytecode
  ip_offset : Nat
  deriving Repr, DecidableEq

namespace Instructions

/-- `Instructions::wrap`. -/
def wrap (bytecode : Bytecode) : Instructions :=
  ⟨bytecode, bytecode.len⟩

/-- `Instructions::current_ip`: `(bytecode.len() - ip_offset) as u32`. -/
def current_ip (ins : Instructions) : Nat :=
  (ins.bytecode.len - ins.ip_offset) % u32_size

/-- `Instructions::emit_code`. -/
def emit_code (ins : Instructions) (code : Opcode) : Instructions :=
  { ins with bytecode := ins.bytecode.emit_byte code.code }

/-- `Instructions::emit_push_int`. -/
def emit_push_int (ins : Instructions) (constant : Int) : Instructions :=
  let ins := ins.emit_code .PushInt
  { ins with bytecode := ins.bytecode.emit_int constant }

/-- `Instructions::emit_jump`: emits a jump opcode followed by a `u32`
placeholder for the target, returning the placeholder. -/
def emit_jump (ins : Instructions) (opcode : Opcode) : Placeholder × Instructions :=
  let ins := ins.emit_code opcode
  let (p, b) := ins.bytecode.emit_u32_placeholder
  (p, { ins with bytecode := b })

/-- `Instructions::patch_jump`: patches the placeholder to point to the
current instruction. -/
def patch_jump (ins : Instructions) (offset_idx : Placeholder) : Instructions :=
  { ins with bytecode := ins.bytecode.patch_u32_placeholder offset_idx ins.current_ip }

/-- `Instructions::jump_back_to`: emits a `Jump` to the given instruction
pointer (`emit_instruction_pointer` emits it as a `u32`). -/
def jump_back_to (ins : Instructions) (start_idx : Nat) : Instructions :=
  let ins := ins.emit_code .Jump
  { ins with bytecode := ins.bytecode.emit_u32 start_idx }

end Instructions

/-! ## Chunk code compilation (`lib.rs`, `compile_chunk_code`) -/

/-- `ValueStackSize` from `type.rs`: the different sizes a value can have
on the stack. -/
inductive ValueStackSize where
  | Zero | Byte | QWord | Reference
  deriving Repr, DecidableEq

/-- Modelled from the spec: the `impl From<ValueStackSize> for u8` lives in
`locals.rs`, which is not under `src/`; §4.6 of the spec states each local
occupies 1/8/8 bytes for `Byte`/`QWord`/`Reference` (`Zero` for zero-sized
types). -/
def value_stack_size_bytes : ValueStackSize → Nat
  | .Zero => 0
  | .Byte => 1
  | .QWord => 8
  | .Reference => 8

/-- One step of body emission, ranging over the `Bytecode`/`Instructions`
API used by `emit` and its helpers: single-byte emissions (opcodes, `u8`
immediates), `u32` emissions (constant references, local offsets, absolute
jump targets), `i64` emissions, jump emissions that allocate a placeholder,
and patches of previously allocated placeholders.  `patch_jump i` patches
the `i`-th placeholder allocated by this body (the emitter can only patch
placeholders it created itself; a reference past the end is a no-op and
never occurs in traces produced by the emitter). -/
inductive BodyOp where
  | emit_byte (b : Nat)
  | emit_u32 (v : Nat)
  | emit_int (v : Int)
  | emit_jump (opcode : Opcode)
  | patch_jump (i : Nat)
  deriving Repr, DecidableEq

/-- The state of a body emission: the wrapped instructions and the
placeholders allocated so far (in allocation order). -/
structure BodyState where
  ins : Instructions
  phs : List Placeholder
  deriving Repr, DecidableEq

/-- Executes one body-emission step. -/
def run_body_op (s : BodyState) : BodyOp → BodyState
  | .emit_byte b => { s with ins := { s.ins with bytecode := s.ins.bytecode.emit_byte b } }
  | .emit_u32 v => { s with ins := { s.ins with bytecode := s.ins.bytecode.emit_u32 v } }
  | .emit_int v => { s with ins := { s.ins with bytecode := s.ins.bytecode.emit_int v } }
  | .emit_jump op =>
    let (p, ins) := s.ins.emit_jump op
    { ins := ins, phs := s.phs ++ [p] }
  | .patch_jump i =>
    match s.phs[i]? with
    | some p => { s with ins := s.ins.patch_jump p }
    | none => s

/-- Executes a body-emission trace. -/
def run_body (ops : List BodyOp) (s : BodyState) : BodyState :=
  ops.foldl run_body_op s

/-- The model of a typed `Chunk` as `compile_chunk_code` consumes it: the
stack sizes of its declared parameters (`get_type_stack_size(p.ty)`), the
stack size of its return type, the number of resolved captures
(`ctx.captures[chunk_id]`), the body-emission trace performed by `emit` on
`chunk.expression`, and the final locals byte count (`LocalsLayout` is kept
abstract: `locals.rs` is not under `src/` and the patched locals count does
not interact with the instruction-count placeholder). -/
structure ChunkModel where
  parameters : List ValueStackSize
  return_type_size : ValueStackSize
  captures : Nat
  body : List BodyOp
  locals_byte_count : Nat

/-- `compile_chunk_code` from `lib.rs` (lines 235–306): emits the
locals-count placeholder, the parameters byte count, the return byte count
and the instruction-count placeholder, wraps the bytecode, runs body
emission, then patches the instruction count with `current_ip` and the
locals count.  (The `take_positions` segment bookkeeping does not touch the
byte buffer and is omitted.) -/
def compile_chunk_code (chunk : ChunkModel) (bytecode : Bytecode) : Bytecode :=
  let (locals_byte_count_ph, bytecode) := bytecode.emit_u32_placeholder
  let parameters_bytes_count :=
    (chunk.parameters.map value_stack_size_bytes).sum +
      chunk.captures * value_stack_size_bytes .QWord
  let bytecode := bytecode.emit_u32 parameters_bytes_count
  let return_bytes_count := value_stack_size_bytes chunk.return_type_size
  let bytecode := bytecode.emit_byte return_bytes_count
  let (instruction_count, bytecode) := bytecode.emit_u32_placeholder
  let instructions := Instructions.wrap bytecode
  let s := run_body chunk.body ⟨instructions, []⟩
  let instruction_byte_count := s.ins.current_ip
  let bytecode := s.ins.bytecode.patch_u32_placeholder instruction_count instruction_byte_count
  bytecode.patch_u32_placeholder locals_byte_count_ph chunk.locals_byte_count

theorem patch_le_len (b : Bytecode) (p : Placeholder) (v : Nat) :
    b.len ≤ (b.patch_u32_placeholder p v).len := by
  unfold Bytecode.patch_u32_placeholder Bytecode.len
  simp only [List.length_append, List.length_take, List.length_drop, u32_be_length]
  omega

theorem list_slice_congr (l1 l2 : List Nat) (s n : Nat)
    (h : ∀ i, s ≤ i → i < s + n → l1[i]? = l2[i]?) :
    list_slice l1 s n = list_slice l2 s n := by
  unfold list_slice
  apply List.ext_getElem?
  intro j
  rcases Nat.lt_or_ge j n with hj | hj
  · rw [List.getElem?_take_of_lt hj, List.getElem?_take_of_lt hj,
      List.getElem?_drop, List.getElem?_drop]
    exact h (s + j) (Nat.le_add_right s j) (by omega)
  · rw [List.getElem?_eq_none, List.getElem?_eq_none]
    · calc (List.take n (l2.drop s)).length ≤ n := List.length_take_le n _
        _ ≤ j := hj
    · calc (List.take n (l1.drop s)).length ≤ n := List.length_take_le n _
        _ ≤ j := hj

theorem run_body_op_ip_offset (s : BodyState) (op : BodyOp) :
    (run_body_op s op).ins.ip_offset = s.ins.ip_offset := by
  cases op with
  | emit_byte b => rfl
  | emit_u32 v => rfl
  | emit_int v => rfl
  | emit_jump o => rfl
  | patch_jump i =>
    unfold run_body_op
    cases h : s.phs[i]? with
    | some p => simp [h, Instructions.patch_jump]
    | none => simp [h]

theorem run_body_op_len_le (s : BodyState) (op : BodyOp) :
    s.ins.bytecode.len ≤ (run_body_op s op).ins.bytecode.len := by
  cases op with
  | emit_byte b => simp [run_body_op, Bytecode.emit_byte, Bytecode.len]
  | emit_u32 v => simp [run_body_op, Bytecode.emit_u32, Bytecode.len]
  | emit_int v => simp [run_body_op, Bytecode.emit_int, Bytecode.len]
  | emit_jump o =>
    simp [run_body_op, Instructions.emit_jump, Instructions.emit_code,
      Bytecode.emit_u32_placeholder, Bytecode.emit_byte, Bytecode.len]
  | patch_jump i =>
    unfold run_body_op
    cases h : s.phs[i]? with
    | some p =>
      simp only [h]
      exact patch_le_len _ p _
    | none =>
      simp only [h]
      exact Nat.le_refl _

theorem run_body_ip_offset (ops : List BodyOp) (s : BodyState) :
    (run_body ops s).ins.ip_offset = s.ins.ip_offset := by
  induction ops generalizing s with
  | nil => rfl
  | cons op rest ih =>
    unfold run_body at *
    rw [List.foldl_cons, ih, run_body_op_ip_offset]

theorem run_body_len_le (ops : List BodyOp) (s : BodyState) :
    s.ins.bytecode.len ≤ (run_body ops s).ins.bytecode.len := by
  induction ops generalizing s with
  | nil => exact Nat.le_refl _
  | cons op rest ih =>
    unfold run_body at *
    rw [List.foldl_cons]
    exact Nat.le_trans (run_body_op_len_le s op) (ih _)

theorem run_body_wrap_len_le (ops : List BodyOp) (b : Bytecode) :
    b.len ≤ (run_body ops ⟨Instructions.wrap b, []⟩).ins.bytecode.len :=
  run_body_len_le ops ⟨Instructions.wrap b, []⟩

theorem patch_instruction_count_spec (b4 : Bytecode) (L0 : Nat) (h4 : b4.len = L0 + 13)
    (body : List BodyOp) (w : Nat)
    (hfin : (((run_body body ⟨Instructions.wrap b4, []⟩).ins.bytecode.patch_u32_placeholder
        ⟨(L0 + 9) % u32_size⟩
        (run_body body ⟨Instructions.wrap b4, []⟩).ins.current_ip).patch_u32_placeholder
        ⟨L0 % u32_size⟩ w).len < u32_size) :
    (((run_body body ⟨Instructions.wrap b4, []⟩).ins.bytecode.patch_u32_placeholder
        ⟨(L0 + 9) % u32_size⟩
        (run_body body ⟨Instructions.wrap b4, []⟩).ins.current_ip).patch_u32_placeholder
        ⟨L0 % u32_size⟩ w).len = (run_body body ⟨Instructions.wrap b4, []⟩).ins.bytecode.len ∧
    list_slice (((run_body body ⟨Instructions.wrap b4, []⟩).ins.bytecode.patch_u32_placeholder
        ⟨(L0 + 9) % u32_size⟩
        (run_body body ⟨Instructions.wrap b4, []⟩).ins.current_ip).patch_u32_placeholder
        ⟨L0 % u32_size⟩ w).bytes (L0 + 9) 4 =
      u32_be ((run_body body ⟨Instructions.wrap b4, []⟩).ins.bytecode.len - (L0 + 13)) := by
  have hmono : b4.len ≤ (run_body body ⟨Instructions.wrap b4, []⟩).ins.bytecode.len :=
    run_body_len_le body ⟨Instructions.wrap b4, []⟩
  have hoff : (run_body body ⟨Instructions.wrap b4, []⟩).ins.ip_offset = b4.len := by
    rw [run_body_ip_offset]
    rfl
  set sF := run_body body ⟨Instructions.wrap b4, []⟩ with hsF
  set lenF := sF.ins.bytecode.len with hlenF_def
  have hL0 : L0 + 13 ≤ lenF := by rw [h4] at hmono; exact hmono
  have hlenF : lenF < u32_size := by
    refine lt_of_le_of_lt ?_ hfin
    exact le_trans (patch_le_len _ _ _) (patch_le_len _ _ _)
  have hmodI : (L0 + 9) % u32_size = L0 + 9 := Nat.mod_eq_of_lt (by omega)
  have hmodL : L0 % u32_size = L0 := Nat.mod_eq_of_lt (by omega)
  simp only [hmodI, hmodL] at hfin ⊢
  have hcip : sF.ins.current_ip = lenF - (L0 + 13) := by
    unfold Instructions.current_ip
    rw [hoff, h4, ← hlenF_def]
    exact Nat.mod_eq_of_lt (by omega)
  have hrangeI : (Placeholder.mk (L0 + 9)).pos + 4 ≤ lenF := by
    simp only
    omega
  have hp1len : (sF.ins.bytecode.patch_u32_placeholder ⟨L0 + 9⟩
      sF.ins.current_ip).len = lenF := patch_len _ _ _ hrangeI
  have hrangeL : (Placeholder.mk L0).pos + 4 ≤
      (sF.ins.bytecode.patch_u32_placeholder ⟨L0 + 9⟩
        sF.ins.current_ip).len := by
    rw [hp1len]
    simp only
    omega
  refine ⟨by rw [patch_len _ _ _ hrangeL, hp1len], ?_⟩
  have hstep : list_slice ((sF.ins.bytecode.patch_u32_placeholder ⟨L0 + 9⟩
        sF.ins.current_ip).patch_u32_placeholder ⟨L0⟩ w).bytes (L0 + 9) 4 =
      list_slice (sF.ins.bytecode.patch_u32_placeholder ⟨L0 + 9⟩
        sF.ins.current_ip).bytes (L0 + 9) 4 := by
    apply list_slice_congr
    intro i hi1 hi2
    apply patch_get_ge _ _ _ _ hrangeL
    simp only
    omega
  rw [hstep, ← hcip]
  exact patch_slice sF.ins.bytecode ⟨L0 + 9⟩ sF.ins.current_ip hrangeI

/-- **C1.** For every typed chunk, `compile_chunk_code` patches into the
instruction-count placeholder (the four bytes at offset `len + 9` of the
chunk record, where `len` is the buffer length on entry) exactly the number
of instruction bytes appended for the chunk's body: body emission starts at
offset `len + 13` (after the locals placeholder, the parameters byte count,
the return byte count and the instruction-count placeholder) and ends at
the final buffer length, and the patched `u32` is that byte distance.
The hypothesis keeps the produced buffer below `2^32` bytes, where the
`as u32` casts of the Rust code are the identity. -/
theorem compile_chunk_code_instruction_count (chunk : ChunkModel) (bytecode : Bytecode)
    (hfin : (compile_chunk_code chunk bytecode).len < u32_size) :
    bytecode.len + 13 ≤ (compile_chunk_code chunk bytecode).len ∧
    list_slice (compile_chunk_code chunk bytecode).bytes (bytecode.len + 9) 4 =
      u32_be ((compile_chunk_code chunk bytecode).len - (bytecode.len + 13)) := by
  have hres : compile_chunk_code chunk bytecode =
      ((run_body chunk.body ⟨Instructions.wrap ⟨bytecode.bytes ++ [0, 0, 0, 0] ++
          u32_be ((chunk.parameters.map value_stack_size_bytes).sum +
            chunk.captures * value_stack_size_bytes .QWord) ++
          [value_stack_size_bytes chunk.return_type_size] ++ [0, 0, 0, 0]⟩,
          []⟩).ins.bytecode.patch_u32_placeholder
        ⟨(Bytecode.mk (bytecode.bytes ++ [0, 0, 0, 0] ++
          u32_be ((chunk.parameters.map value_stack_size_bytes).sum +
            chunk.captures * value_stack_size_bytes .QWord) ++
          [value_stack_size_bytes chunk.return_type_size])).len % u32_size⟩
        (run_body chunk.body ⟨Instructions.wrap ⟨bytecode.bytes ++ [0, 0, 0, 0] ++
          u32_be ((chunk.parameters.map value_stack_size_bytes).sum +
            chunk.captures * value_stack_size_bytes .QWord) ++
          [value_stack_size_bytes chunk.return_type_size] ++ [0, 0, 0, 0]⟩,
          []⟩).ins.current_ip).patch_u32_placeholder
        ⟨bytecode.len % u32_size⟩ chunk.locals_byte_count := rfl
  have h3 : (Bytecode.mk (bytecode.bytes ++ [0, 0, 0, 0] ++
      u32_be ((chunk.parameters.map value_stack_size_bytes).sum +
        chunk.captures * value_stack_size_bytes .QWord) ++
      [value_stack_size_bytes chunk.return_type_size])).len = bytecode.len + 9 := by
    simp [Bytecode.len, u32_be_length]
  have h4 : (Bytecode.mk (bytecode.bytes ++ [0, 0, 0, 0] ++
      u32_be ((chunk.parameters.map value_stack_size_bytes).sum +
        chunk.captures * value_stack_size_bytes .QWord) ++
      [value_stack_size_bytes chunk.return_type_size] ++ [0, 0, 0, 0])).len =
      bytecode.len + 13 := by
    simp [Bytecode.len, u32_be_length]
  rw [h3] at hres
  rw [hres] at hfin ⊢
  obtain ⟨hA, hB⟩ :=
    patch_instruction_count_spec _ bytecode.len h4 chunk.body chunk.locals_byte_count hfin
  refine ⟨?_, ?_⟩
  · rw [hA]
    refine le_trans (le_of_eq h4.symm) ?_
    exact run_body_wrap_len_le chunk.body _
  · rw [hA]
    exact hB

/-- Witness for C1: a chunk with no parameters, zero-sized return type, no
captures and a two-byte body trace, compiled into an empty buffer. -/
theorem compile_chunk_code_instruction_count_witness :
    (Bytecode.mk []).len + 13 ≤
        (compile_chunk_code ⟨[], .Zero, 0, [.emit_byte 3, .emit_byte 4], 7⟩ ⟨[]⟩).len ∧
      list_slice (compile_chunk_code ⟨[], .Zero, 0, [.emit_byte 3, .emit_byte 4], 7⟩
          ⟨[]⟩).bytes ((Bytecode.mk []).len + 9) 4 =
        u32_be ((compile_chunk_code ⟨[], .Zero, 0, [.emit_byte 3, .emit_byte 4], 7⟩
          ⟨[]⟩).len - ((Bytecode.mk []).len + 13)) :=
  compile_chunk_code_instruction_count ⟨[], .Zero, 0, [.emit_byte 3, .emit_byte 4], 7⟩ ⟨[]⟩
    (by decide)

/-! ## Capture resolution ordering (`lib.rs`, `resolve_captures`) -/

/-- `ResolvedSymbol` from `relations.rs`: the module where the symbol is
defined (`SourceId`) and the symbol's identifier local to that module. -/
structure ResolvedSymbol where
  source : Nat
  object_id : Nat
  deriving Repr, DecidableEq

/-- The comparator passed to `chunk_captures.sort_by` in `resolve_captures`
(`lib.rs` lines 205–210): compare by source id, then by local id. -/
def capture_cmp (a b : ResolvedSymbol) : Ordering :=
  (compare a.source b.source).then (compare a.object_id b.object_id)

/-- The `≤` test induced by the comparator (an element may stay before
another whenever the comparator does not say `Greater`).  Rust's
`sort_by` is a stable merge sort by this test. -/
def capture_le (a b : ResolvedSymbol) : Bool :=
  capture_cmp a b != Ordering.gt

/-- The sorting step of `resolve_captures` (`lib.rs` lines 203–212): the
externals hash set is collected into a vector — in an arbitrary iteration
order, modelled by taking the list as input — and sorted with
`capture_cmp`. -/
def resolve_chunk_captures (externals : List ResolvedSymbol) : List ResolvedSymbol :=
  externals.mergeSort capture_le

/-- The strict lexicographic order by `(source, object_id)`. -/
def capture_lt (a b : ResolvedSymbol) : Prop :=
  a.source < b.source ∨ (a.source = b.source ∧ a.object_id < b.object_id)

theorem capture_cmp_eq_gt_iff (a b : ResolvedSymbol) :
    capture_cmp a b = Ordering.gt ↔
      b.source < a.source ∨ (a.source = b.source ∧ b.object_id < a.object_id) := by
  unfold capture_cmp
  rcases hc : compare a.source b.source with _ | _ | _
  · have h1 : a.source < b.source := Nat.compare_eq_lt.1 hc
    simp [Ordering.then]
    omega
  · have h1 : a.source = b.source := Nat.compare_eq_eq.1 hc
    simp only [Ordering.then]
    rw [Nat.compare_eq_gt]
    omega
  · have h1 : b.source < a.source := Nat.compare_eq_gt.1 hc
    simp [Ordering.then]
    omega

theorem capture_le_iff (a b : ResolvedSymbol) :
    capture_le a b = true ↔
      a.source < b.source ∨ (a.source = b.source ∧ a.object_id ≤ b.object_id) := by
  have h := capture_cmp_eq_gt_iff a b
  unfold capture_le
  constructor
  · intro hle
    have hne : capture_cmp a b ≠ Ordering.gt := by
      intro he
      rw [he] at hle
      exact absurd hle (by decide)
    have hn2 : ¬(b.source < a.source ∨ (a.source = b.source ∧ b.object_id < a.object_id)) :=
      fun hcontra => hne (h.2 hcontra)
    omega
  · intro hrhs
    have hne : capture_cmp a b ≠ Ordering.gt := by
      intro he
      have := h.1 he
      omega
    cases hcv : capture_cmp a b with
    | lt => decide
    | eq => decide
    | gt => exact absurd hcv hne

theorem capture_le_trans (a b c : ResolvedSymbol)
    (h1 : capture_le a b = true) (h2 : capture_le b c = true) :
    capture_le a c = true := by
  rw [capture_le_iff] at h1 h2 ⊢
  omega

theorem capture_le_total (a b : ResolvedSymbol) :
    (capture_le a b || capture_le b a) = true := by
  rw [Bool.or_eq_true, capture_le_iff, capture_le_iff]
  omega

theorem capture_le_antisymm (a b : ResolvedSymbol)
    (h1 : capture_le a b = true) (h2 : capture_le b a = true) : a = b := by
  rw [capture_le_iff] at h1 h2
  have hs : a.source = b.source := by omega
  have ho : a.object_id = b.object_id := by omega
  cases a
  cases b
  simp_all

/-- **C9.** The captures list computed for a chunk by `resolve_captures` is
duplicate-free and strictly ascending in the lexicographic order by
`(source, object_id)`; it is the same list for every iteration order of the
externals hash set, so the capture-dependent bytecode is deterministic. -/
theorem resolve_chunk_captures_sorted (externals : List ResolvedSymbol)
    (h : externals.Nodup) :
    (resolve_chunk_captures externals).Nodup ∧
      List.Chain' capture_lt (resolve_chunk_captures externals) ∧
      ∀ other : List ResolvedSymbol, other.Perm externals →
        resolve_chunk_captures other = resolve_chunk_captures externals := by
  have hperm : ∀ l : List ResolvedSymbol, (l.mergeSort capture_le).Perm l :=
    fun l => List.mergeSort_perm l capture_le
  have hsorted : ∀ l : List ResolvedSymbol,
      List.Pairwise (fun a b => capture_le a b = true) (l.mergeSort capture_le) :=
    List.sorted_mergeSort capture_le_trans capture_le_total
  have hnodup : (resolve_chunk_captures externals).Nodup :=
    (hperm externals).symm.nodup h
  refine ⟨hnodup, ?_, ?_⟩
  · apply List.Pairwise.chain'
    have hpw := (hsorted externals).and hnodup
    exact hpw.imp (fun {a b} hab => by
      obtain ⟨hle, hne⟩ := hab
      rw [capture_le_iff] at hle
      unfold capture_lt
      rcases hle with h1 | ⟨h2, h3⟩
      · exact Or.inl h1
      · refine Or.inr ⟨h2, lt_of_le_of_ne h3 ?_⟩
        intro hobj
        exact hne (capture_le_antisymm a b
          ((capture_le_iff a b).2 (Or.inr ⟨h2, le_of_eq hobj⟩))
          ((capture_le_iff b a).2 (Or.inr ⟨h2.symm, le_of_eq hobj.symm⟩))))
  · intro other hother
    have hA : IsAntisymm ResolvedSymbol (fun a b => capture_le a b = true) :=
      ⟨capture_le_antisymm⟩
    exact @List.eq_of_perm_of_sorted ResolvedSymbol
      (fun a b => capture_le a b = true) hA _ _
      ((hperm other).trans (hother.trans (hperm externals).symm))
      (hsorted other) (hsorted externals)

/-- Witness for C9: the captures set `{(1,1), (0,5), (1,0)}` given in two
iteration orders. -/
theorem resolve_chunk_captures_sorted_witness :
    (resolve_chunk_captures [⟨1, 1⟩, ⟨0, 5⟩, ⟨1, 0⟩]).Nodup ∧
      List.Chain' capture_lt (resolve_chunk_captures [⟨1, 1⟩, ⟨0, 5⟩, ⟨1, 0⟩]) ∧
      ∀ other : List ResolvedSymbol, other.Perm [⟨1, 1⟩, ⟨0, 5⟩, ⟨1, 0⟩] →
        resolve_chunk_captures other = resolve_chunk_captures [⟨1, 1⟩, ⟨0, 5⟩, ⟨1, 0⟩] :=
  resolve_chunk_captures_sorted [⟨1, 1⟩, ⟨0, 5⟩, ⟨1, 0⟩] (by decide)

/-! ## Emission state and loop emission (`emit.rs`, `emit/jump.rs`) -/

/-- `EmissionState` from `emit.rs`: the start instruction position of the
enclosing loop (0 when there is no loop), the placeholders waiting for the
end of the loop, and the `use_values` flag.  `is_returning_value` is the
flag saved and restored by `emit_loop` through `state.returning_value`
(`jump.rs` lines 74 and 109). -/
structure EmissionState where
  enclosing_loop_start : Nat
  enclosing_loop_end_placeholders : List Placeholder
  use_values : Bool
  is_returning_value : Bool
  deriving Repr, DecidableEq

/-- `EmissionState::in_loop`: a fresh emission state for a loop body, with
`use_values` false and an empty end-placeholder list. -/
def EmissionState.in_loop (loop_start : Nat) : EmissionState :=
  ⟨loop_start, [], false, false⟩

/-- The HIR fragment consumed by the emission claims: integer literals,
blocks, conditional loops, `continue` and `break` (from the `ExprKind`
variants `Literal`, `Block`, `ConditionalLoop`, `Continue`, `Break`
dispatched by `emit` in `emit.rs`). -/
inductive Hir where
  | literal (v : Int)
  | block (exprs : List Hir)
  | conditionalLoop (condition : Option Hir) (body : Hir)
  | continueExpr
  | breakExpr

/-- The emission state used for a loop body: `EmissionState::in_loop`
seeded with the loop's end-placeholder list (the condition's `IfNotJump`
placeholder when a condition is present). -/
def in_loop_with (loop_start : Nat) (phs : List Placeholder) : EmissionState :=
  { EmissionState.in_loop loop_start with enclosing_loop_end_placeholders := phs }

mutual

/-- `emit` from `emit.rs`, restricted to the fragment above (the constant
pool and locals layout are unused by these variants and omitted):
* `Literal`: `emit_push_int` only when `use_values` is set;
* `Block`: `emit_block` — every expression but the last is emitted with
  `use_values` false, the last with the caller's flag;
* `ConditionalLoop`: `emit_loop` from `jump.rs` — record `current_ip` as
  the loop start, save and clear `is_returning_value`, emit the condition
  (if any) with `use_values` true followed by an `IfNotJump` placeholder
  pushed onto the fresh loop state's end list, emit the body with the loop
  state (`use_values` false), emit `Jump` back to the start, then patch
  every end placeholder to the current instruction;
* `Continue`: `emit_continue` — `jump_back_to` the enclosing loop start;
* `Break`: `emit_break` — emit a `Jump` placeholder pushed onto the
  enclosing loop's end list. -/
def emit : Hir → Instructions → EmissionState → Instructions × EmissionState
  | .literal v, ins, st =>
    if st.use_values then (ins.emit_push_int v, st) else (ins, st)
  | .block exprs, ins, st => emit_block exprs ins st
  | .conditionalLoop cond body, ins, st =>
    let loop_start := ins.current_ip
    let cres := loop_cond_step cond ins st
    let bres := emit body cres.1 (in_loop_with loop_start cres.2.2)
    let insJ := bres.1.jump_back_to loop_start
    let insP := bres.2.enclosing_loop_end_placeholders.foldl
      (fun i p => i.patch_jump p) insJ
    (insP, { cres.2.1 with is_returning_value := st.is_returning_value })
  | .continueExpr, ins, st =>
    (ins.jump_back_to st.enclosing_loop_start, st)
  | .breakExpr, ins, st =>
    let j := ins.emit_jump .Jump
    (j.2, { st with enclosing_loop_end_placeholders :=
      st.enclosing_loop_end_placeholders ++ [j.1] })

/-- The condition step of `emit_loop` (`jump.rs` lines 74–86): clear
`is_returning_value`, then, when a condition is present, emit it with
`use_values` true (restoring the flag afterwards) and emit an `IfNotJump`
whose placeholder seeds the fresh loop's end-placeholder list. -/
def loop_cond_step (cond : Option Hir) (ins : Instructions) (st : EmissionState) :
    Instructions × EmissionState × List Placeholder :=
  match cond with
  | some condition =>
    let r := emit condition ins
      { st with is_returning_value := false, use_values := true }
    let j := r.1.emit_jump .IfNotJump
    (j.2, { r.2 with use_values := st.use_values }, [j.1])
  | none => (ins, { st with is_returning_value := false }, [])

/-- `emit_block` from `emit.rs`: all expressions but the last are emitted
with `use_values` false (saving and restoring the caller's flag), the last
one with the caller's state. -/
def emit_block : List Hir → Instructions → EmissionState → Instructions × EmissionState
  | [], ins, st => (ins, st)
  | [e], ins, st => emit e ins st
  | e :: rest, ins, st =>
    let last_used := st.use_values
    let r := emit e ins { st with use_values := false }
    emit_block rest r.1 { r.2 with use_values := last_used }

end

/-- Well-formedness of a list of pending placeholders with respect to a
buffer length: every placeholder's four-byte region lies inside the buffer,
and the regions are disjoint in allocation order. -/
def phs_ok (len : Nat) (ps : List Placeholder) : Prop :=
  (∀ p ∈ ps, p.pos + 4 ≤ len) ∧ ps.Pairwise (fun p q => p.pos + 4 ≤ q.pos)

theorem phs_ok_mono {n m : Nat} {ps : List Placeholder} (h : phs_ok n ps)
    (hnm : n ≤ m) : phs_ok m ps :=
  ⟨fun p hp => le_trans (h.1 p hp) hnm, h.2⟩

theorem phs_ok_nil (len : Nat) : phs_ok len [] :=
  ⟨fun _ h => absurd h (List.not_mem_nil _), List.Pairwise.nil⟩

theorem emit_code_len (ins : Instructions) (op : Opcode) :
    (ins.emit_code op).bytecode.len = ins.bytecode.len + 1 := by
  simp [Instructions.emit_code, Bytecode.emit_byte, Bytecode.len]

theorem emit_push_int_len (ins : Instructions) (v : Int) :
    (ins.emit_push_int v).bytecode.len = ins.bytecode.len + 9 := by
  simp [Instructions.emit_push_int, Instructions.emit_code, Bytecode.emit_byte,
    Bytecode.emit_int, Bytecode.len, to_be_bytes_length]

theorem emit_push_int_offset (ins : Instructions) (v : Int) :
    (ins.emit_push_int v).ip_offset = ins.ip_offset := rfl

theorem emit_jump_len (ins : Instructions) (op : Opcode) :
    (ins.emit_jump op).2.bytecode.len = ins.bytecode.len + 5 := by
  simp [Instructions.emit_jump, Instructions.emit_code,
    Bytecode.emit_u32_placeholder, Bytecode.emit_byte, Bytecode.len]

theorem emit_jump_offset (ins : Instructions) (op : Opcode) :
    (ins.emit_jump op).2.ip_offset = ins.ip_offset := rfl

theorem emit_jump_ph_pos (ins : Instructions) (op : Opcode) :
    (ins.emit_jump op).1.pos = (ins.bytecode.len + 1) % u32_size := by
  simp [Instructions.emit_jump, Instructions.emit_code,
    Bytecode.emit_u32_placeholder, Bytecode.emit_byte, Bytecode.len]

theorem jump_back_to_bytes (ins : Instructions) (start : Nat) :
    (ins.jump_back_to start).bytecode.bytes =
      ins.bytecode.bytes ++ [Opcode.Jump.code] ++ u32_be start := rfl

theorem jump_back_to_len (ins : Instructions) (start : Nat) :
    (ins.jump_back_to start).bytecode.len = ins.bytecode.len + 5 := by
  simp [Instructions.jump_back_to, Instructions.emit_code, Bytecode.emit_byte,
    Bytecode.emit_u32, Bytecode.len, u32_be_length]

theorem jump_back_to_offset (ins : Instructions) (start : Nat) :
    (ins.jump_back_to start).ip_offset = ins.ip_offset := rfl

theorem patch_jump_offset (ins : Instructions) (p : Placeholder) :
    (ins.patch_jump p).ip_offset = ins.ip_offset := rfl

theorem patch_jump_le_len (ins : Instructions) (p : Placeholder) :
    ins.bytecode.len ≤ (ins.patch_jump p).bytecode.len :=
  patch_le_len ins.bytecode p ins.current_ip

theorem patch_jump_len (ins : Instructions) (p : Placeholder)
    (h : p.pos + 4 ≤ ins.bytecode.len) :
    (ins.patch_jump p).bytecode.len = ins.bytecode.len :=
  patch_len ins.bytecode p ins.current_ip h

theorem foldl_patch_le_len (ps : List Placeholder) (ins : Instructions) :
    ins.bytecode.len ≤
      (ps.foldl (fun i p => i.patch_jump p) ins).bytecode.len := by
  induction ps generalizing ins with
  | nil => exact Nat.le_refl _
  | cons p rest ih =>
    rw [List.foldl_cons]
    exact le_trans (patch_jump_le_len ins p) (ih _)

theorem foldl_patch_offset (ps : List Placeholder) (ins : Instructions) :
    (ps.foldl (fun i p => i.patch_jump p) ins).ip_offset = ins.ip_offset := by
  induction ps generalizing ins with
  | nil => rfl
  | cons p rest ih =>
    rw [List.foldl_cons, ih, patch_jump_offset]

theorem foldl_patch_len (ps : List Placeholder) (ins : Instructions)
    (h : ∀ p ∈ ps, p.pos + 4 ≤ ins.bytecode.len) :
    (ps.foldl (fun i p => i.patch_jump p) ins).bytecode.len =
      ins.bytecode.len := by
  induction ps generalizing ins with
  | nil => rfl
  | cons p rest ih =>
    rw [List.foldl_cons]
    have hp := h p (List.mem_cons_self p rest)
    have h1 := patch_jump_len ins p hp
    rw [ih _ (fun q hq => by rw [h1]; exact h q (List.mem_cons_of_mem p hq)), h1]

/-- The invariant maintained by `emit`: the buffer only grows, the wrap
offset is untouched, and (below the `u32` length bound) well-formed pending
placeholders stay well-formed. -/
def emit_inv (res : Instructions × EmissionState) (ins : Instructions)
    (st : EmissionState) : Prop :=
  ins.bytecode.len ≤ res.1.bytecode.len ∧
  res.1.ip_offset = ins.ip_offset ∧
  (res.1.bytecode.len < u32_size →
    phs_ok ins.bytecode.len st.enclosing_loop_end_placeholders →
    phs_ok res.1.bytecode.len res.2.enclosing_loop_end_placeholders)

/-- The invariant for `loop_cond_step`: additionally, the fresh loop's
seeded placeholder list is well-formed. -/
def cond_inv (res : Instructions × EmissionState × List Placeholder)
    (ins : Instructions) (st : EmissionState) : Prop :=
  ins.bytecode.len ≤ res.1.bytecode.len ∧
  res.1.ip_offset = ins.ip_offset ∧
  (res.1.bytecode.len < u32_size →
    phs_ok ins.bytecode.len st.enclosing_loop_end_placeholders →
    phs_ok res.1.bytecode.len res.2.1.enclosing_loop_end_placeholders ∧
    phs_ok res.1.bytecode.len res.2.2)

theorem emit_literal_eq (v : Int) (ins : Instructions) (st : EmissionState) :
    emit (.literal v) ins st =
      if st.use_values then (ins.emit_push_int v, st) else (ins, st) := by
  unfold emit
  rfl

theorem emit_block_dispatch_eq (exprs : List Hir) (ins : Instructions) (st : EmissionState) :
    emit (.block exprs) ins st = emit_block exprs ins st := by
  unfold emit
  rfl

theorem emit_loop_eq (cond : Option Hir) (body : Hir) (ins : Instructions)
    (st : EmissionState) :
    emit (.conditionalLoop cond body) ins st =
      ((emit body (loop_cond_step cond ins st).1
          (in_loop_with ins.current_ip
            (loop_cond_step cond ins st).2.2)).2.enclosing_loop_end_placeholders.foldl
        (fun i p => i.patch_jump p)
        ((emit body (loop_cond_step cond ins st).1
          (in_loop_with ins.current_ip
            (loop_cond_step cond ins st).2.2)).1.jump_back_to ins.current_ip),
       { (loop_cond_step cond ins st).2.1 with
         is_returning_value := st.is_returning_value }) := by
  conv_lhs => unfold emit

theorem emit_continue_eq (ins : Instructions) (st : EmissionState) :
    emit .continueExpr ins st = (ins.jump_back_to st.enclosing_loop_start, st) := by
  unfold emit
  rfl

theorem emit_break_eq (ins : Instructions) (st : EmissionState) :
    emit .breakExpr ins st =
      ((ins.emit_jump .Jump).2,
       { st with enclosing_loop_end_placeholders :=
         st.enclosing_loop_end_placeholders ++ [(ins.emit_jump .Jump).1] }) := by
  unfold emit
  rfl

theorem emit_block_nil_eq (ins : Instructions) (st : EmissionState) :
    emit_block [] ins st = (ins, st) := by
  unfold emit_block
  rfl

theorem emit_block_one_eq (e : Hir) (ins : Instructions) (st : EmissionState) :
    emit_block [e] ins st = emit e ins st := by
  unfold emit_block
  rfl

theorem emit_block_cons_eq (e : Hir) (e2 : Hir) (rest : List Hir)
    (ins : Instructions) (st : EmissionState) :
    emit_block (e :: e2 :: rest) ins st =
      emit_block (e2 :: rest) (emit e ins { st with use_values := false }).1
        { (emit e ins { st with use_values := false }).2 with
          use_values := st.use_values } := by
  conv_lhs => unfold emit_block

theorem loop_cond_step_some_eq (c : Hir) (ins : Instructions) (st : EmissionState) :
    loop_cond_step (some c) ins st =
      (((emit c ins { st with
          is_returning_value := false, use_values := true }).1.emit_jump .IfNotJump).2,
       { (emit c ins { st with
           is_returning_value := false, use_values := true }).2 with
         use_values := st.use_values },
       [((emit c ins { st with
           is_returning_value := false, use_values := true }).1.emit_jump .IfNotJump).1]) := by
  unfold loop_cond_step
  rfl

theorem loop_cond_step_none_eq (ins : Instructions) (st : EmissionState) :
    loop_cond_step none ins st =
      (ins, { st with is_returning_value := false }, []) := by
  unfold loop_cond_step
  rfl

theorem emit_invariants :
    (∀ (e : Hir) (ins : Instructions) (st : EmissionState),
      emit_inv (emit e ins st) ins st) ∧
    (∀ (cond : Option Hir) (ins : Instructions) (st : EmissionState),
      cond_inv (loop_cond_step cond ins st) ins st) ∧
    (∀ (l : List Hir) (ins : Instructions) (st : EmissionState),
      emit_inv (emit_block l ins st) ins st) := by
  refine emit.mutual_induct
    (fun e ins st => emit_inv (emit e ins st) ins st)
    (fun cond ins st => cond_inv (loop_cond_step cond ins st) ins st)
    (fun l ins st => emit_inv (emit_block l ins st) ins st)
    ?_ ?_ ?_ ?_ ?_ ?_ ?_ ?_ ?_ ?_ ?_
  · -- literal, use_values = true
    intro v ins st h
    unfold emit_inv
    rw [emit_literal_eq, if_pos h]
    refine ⟨?_, rfl, ?_⟩
    · rw [emit_push_int_len]
      omega
    · intro _ hok
      rw [emit_push_int_len]
      exact phs_ok_mono hok (by omega)
  · -- literal, use_values = false
    intro v ins st h
    unfold emit_inv
    rw [emit_literal_eq, if_neg h]
    exact ⟨Nat.le_refl _, rfl, fun _ hok => hok⟩
  · -- block dispatch
    intro exprs ins st ih
    unfold emit_inv at ih ⊢
    rw [emit_block_dispatch_eq]
    exact ih
  · -- conditional loop
    intro cond body ins st loop_start cres ihc ihb
    have hC : cond_inv (loop_cond_step cond ins st) ins st := ihc
    have hB : emit_inv
        (emit body (loop_cond_step cond ins st).1
          (in_loop_with ins.current_ip (loop_cond_step cond ins st).2.2))
        (loop_cond_step cond ins st).1
        (in_loop_with ins.current_ip (loop_cond_step cond ins st).2.2) := ihb
    clear ihc ihb
    unfold cond_inv at hC
    unfold emit_inv at hB ⊢
    rw [emit_loop_eq]
    obtain ⟨hC1, hC2, hC3⟩ := hC
    obtain ⟨hB1, hB2, hB3⟩ := hB
    refine ⟨?_, ?_, ?_⟩
    · dsimp only
      refine le_trans hC1 (le_trans hB1 (le_trans ?_ (foldl_patch_le_len _ _)))
      rw [jump_back_to_len]
      omega
    · dsimp only
      rw [foldl_patch_offset, jump_back_to_offset, hB2, hC2]
    · dsimp only
      intro hfin hok
      have hjle := foldl_patch_le_len
        (emit body (loop_cond_step cond ins st).1
          (in_loop_with ins.current_ip
            (loop_cond_step cond ins st).2.2)).2.enclosing_loop_end_placeholders
        ((emit body (loop_cond_step cond ins st).1
          (in_loop_with ins.current_ip
            (loop_cond_step cond ins st).2.2)).1.jump_back_to ins.current_ip)
      rw [jump_back_to_len] at hjle
      have hBfin : (emit body (loop_cond_step cond ins st).1
          (in_loop_with ins.current_ip
            (loop_cond_step cond ins st).2.2)).1.bytecode.len < u32_size := by
        omega
      have hLfin : (loop_cond_step cond ins st).1.bytecode.len < u32_size := by
        omega
      obtain ⟨hOk1, hOkF⟩ := hC3 hLfin hok
      have hOkB := hB3 hBfin hOkF
      have hin : ∀ p ∈ (emit body (loop_cond_step cond ins st).1
          (in_loop_with ins.current_ip
            (loop_cond_step cond ins st).2.2)).2.enclosing_loop_end_placeholders,
          p.pos + 4 ≤ ((emit body (loop_cond_step cond ins st).1
            (in_loop_with ins.current_ip
              (loop_cond_step cond ins st).2.2)).1.jump_back_to
            ins.current_ip).bytecode.len := by
        intro p hp
        rw [jump_back_to_len]
        exact le_trans (hOkB.1 p hp) (by omega)
      have hflen := foldl_patch_len _ _ hin
      rw [hflen, jump_back_to_len]
      exact phs_ok_mono hOk1 (by omega)
  · -- continue
    intro ins st
    unfold emit_inv
    rw [emit_continue_eq]
    refine ⟨?_, rfl, ?_⟩
    · rw [jump_back_to_len]
      omega
    · intro _ hok
      exact phs_ok_mono hok (by rw [jump_back_to_len]; omega)
  · -- break
    intro ins st
    unfold emit_inv
    rw [emit_break_eq]
    refine ⟨?_, emit_jump_offset ins .Jump, ?_⟩
    · rw [emit_jump_len]
      omega
    · intro hfin hok
      dsimp only
      rw [emit_jump_len] at hfin ⊢
      have hlt : ins.bytecode.len + 1 < u32_size := by omega
      constructor
      · intro p hp
        rcases List.mem_append.1 hp with h1 | h2
        · have := hok.1 p h1
          omega
        · rw [List.mem_singleton] at h2
          subst h2
          rw [emit_jump_ph_pos, Nat.mod_eq_of_lt hlt]
      · rw [List.pairwise_append]
        refine ⟨hok.2, List.pairwise_singleton _ _, ?_⟩
        intro p hp q hq
        rw [List.mem_singleton] at hq
        subst hq
        rw [emit_jump_ph_pos, Nat.mod_eq_of_lt hlt]
        have := hok.1 p hp
        omega
  · -- empty block
    intro ins st
    unfold emit_inv
    rw [emit_block_nil_eq]
    exact ⟨Nat.le_refl _, rfl, fun _ hok => hok⟩
  · -- singleton block
    intro e ins st ih
    unfold emit_inv at ih ⊢
    rw [emit_block_one_eq]
    exact ih
  · -- block with at least two expressions
    intro e rest ins st hne last_used r ih1 ih2
    obtain ⟨e2, rest', rfl⟩ : ∃ e2 rest', rest = e2 :: rest' := by
      cases rest with
      | nil => exact absurd rfl hne
      | cons a b => exact ⟨a, b, rfl⟩
    have h1 : emit_inv (emit e ins { st with use_values := false }) ins
        { st with use_values := false } := ih1
    have h2 : emit_inv
        (emit_block (e2 :: rest') (emit e ins { st with use_values := false }).1
          { (emit e ins { st with use_values := false }).2 with
            use_values := st.use_values })
        (emit e ins { st with use_values := false }).1
        { (emit e ins { st with use_values := false }).2 with
          use_values := st.use_values } := ih2
    clear ih1 ih2
    unfold emit_inv at h1 h2 ⊢
    rw [emit_block_cons_eq]
    obtain ⟨h11, h12, h13⟩ := h1
    obtain ⟨h21, h22, h23⟩ := h2
    refine ⟨le_trans h11 h21, by rw [h22, h12], ?_⟩
    intro hfin hok
    have hmid : (emit e ins { st with use_values := false }).1.bytecode.len <
        u32_size := by omega
    exact h23 hfin (h13 hmid hok)
  · -- loop condition step, condition present
    intro ins st condition ih
    have h1 : emit_inv
        (emit condition ins
          { st with is_returning_value := false, use_values := true }) ins
        { st with is_returning_value := false, use_values := true } := ih
    clear ih
    unfold emit_inv at h1
    unfold cond_inv
    rw [loop_cond_step_some_eq]
    obtain ⟨h11, h12, h13⟩ := h1
    refine ⟨?_, ?_, ?_⟩
    · dsimp only
      rw [emit_jump_len]
      omega
    · dsimp only
      rw [emit_jump_offset, h12]
    · dsimp only
      intro hfin hok
      rw [emit_jump_len] at hfin ⊢
      have hRfin : (emit condition ins
          { st with
            is_returning_value := false, use_values := true }).1.bytecode.len <
          u32_size := by omega
      have hOkR := h13 hRfin hok
      have hlt : (emit condition ins
          { st with
            is_returning_value := false, use_values := true }).1.bytecode.len + 1 <
          u32_size := by omega
      refine ⟨phs_ok_mono hOkR (by omega), ?_, ?_⟩
      · intro p hp
        rw [List.mem_singleton] at hp
        subst hp
        rw [emit_jump_ph_pos, Nat.mod_eq_of_lt hlt]
      · exact List.pairwise_singleton _ _
  · -- loop condition step, no condition
    intro ins st
    unfold cond_inv
    rw [loop_cond_step_none_eq]
    exact ⟨Nat.le_refl _, rfl, fun _ hok => ⟨hok, phs_ok_nil _⟩⟩

theorem foldl_patch_preserves_low (ps : List Placeholder) (ins : Instructions)
    (s n : Nat) (hin : ∀ p ∈ ps, p.pos + 4 ≤ ins.bytecode.len)
    (hge : ∀ p ∈ ps, s + n ≤ p.pos) :
    list_slice (ps.foldl (fun i q => i.patch_jump q) ins).bytecode.bytes s n =
      list_slice ins.bytecode.bytes s n := by
  induction ps generalizing ins with
  | nil => rfl
  | cons p rest ih =>
    rw [List.foldl_cons]
    have hpin : p.pos + 4 ≤ ins.bytecode.len := hin p (List.mem_cons_self p rest)
    have hlen1 : (ins.patch_jump p).bytecode.len = ins.bytecode.len :=
      patch_jump_len ins p hpin
    rw [ih (ins.patch_jump p)
      (fun q hq => by rw [hlen1]; exact hin q (List.mem_cons_of_mem p hq))
      (fun q hq => hge q (List.mem_cons_of_mem p hq))]
    apply list_slice_congr
    intro i hi1 hi2
    exact patch_get_lt ins.bytecode p ins.current_ip i hpin
      (by have := hge p (List.mem_cons_self p rest); omega)

theorem foldl_patch_current_ip (ps : List Placeholder) (ins : Instructions)
    (hin : ∀ p ∈ ps, p.pos + 4 ≤ ins.bytecode.len) :
    (ps.foldl (fun i q => i.patch_jump q) ins).current_ip = ins.current_ip := by
  unfold Instructions.current_ip
  rw [foldl_patch_len ps ins hin, foldl_patch_offset]

theorem foldl_patch_slices (ps : List Placeholder) (ins : Instructions)
    (hin : ∀ p ∈ ps, p.pos + 4 ≤ ins.bytecode.len)
    (hpw : ps.Pairwise (fun p q => p.pos + 4 ≤ q.pos)) :
    ∀ p ∈ ps, list_slice (ps.foldl (fun i q => i.patch_jump q) ins).bytecode.bytes
      p.pos 4 = u32_be ins.current_ip := by
  induction ps generalizing ins with
  | nil => intro p hp; cases hp
  | cons p0 rest ih =>
    intro p hp
    rw [List.foldl_cons]
    have hp0in : p0.pos + 4 ≤ ins.bytecode.len := hin p0 (List.mem_cons_self p0 rest)
    have hlen1 : (ins.patch_jump p0).bytecode.len = ins.bytecode.len :=
      patch_jump_len ins p0 hp0in
    have hcip : (ins.patch_jump p0).current_ip = ins.current_ip := by
      unfold Instructions.current_ip
      rw [hlen1, patch_jump_offset]
    rcases List.mem_cons.1 hp with rfl | hmem
    · have hge : ∀ q ∈ rest, p.pos + 4 ≤ q.pos :=
        fun q hq => (List.pairwise_cons.1 hpw).1 q hq
      rw [foldl_patch_preserves_low rest (ins.patch_jump p) p.pos 4
        (fun q hq => by rw [hlen1]; exact hin q (List.mem_cons_of_mem p hq)) hge]
      exact patch_slice ins.bytecode p ins.current_ip hp0in
    · have := ih (ins.patch_jump p0)
        (fun q hq => by rw [hlen1]; exact hin q (List.mem_cons_of_mem p0 hq))
        (List.pairwise_cons.1 hpw).2 p hmem
      rw [hcip] at this
      exact this

/-- **C7.** Emitting a conditional loop records `current_ip` at entry as
the loop start; the condition (when present) is emitted with
`use_values = true` followed by an `IfNotJump` placeholder seeding the
loop-end list (`loop_cond_step`), the body is emitted with the `in_loop`
state (`use_values = false`), an unconditional `Jump` back to the start
follows, and every placeholder of the loop-end list — the condition's and
those pushed by `break` — is patched with the ip of the first instruction
after the loop.  `continue` emits a `Jump` to the recorded loop start and
`break` emits a `Jump` placeholder appended to the enclosing loop's end
list. -/
theorem emit_loop_continue_break_spec (cond : Option Hir) (body : Hir)
    (ins : Instructions) (st : EmissionState)
    (hfin : (emit (.conditionalLoop cond body) ins st).1.bytecode.len < u32_size)
    (hok : phs_ok ins.bytecode.len st.enclosing_loop_end_placeholders) :
    (emit (.conditionalLoop cond body) ins st).1 =
        (emit body (loop_cond_step cond ins st).1
          (in_loop_with ins.current_ip
            (loop_cond_step cond ins st).2.2)).2.enclosing_loop_end_placeholders.foldl
          (fun i p => i.patch_jump p)
          ((emit body (loop_cond_step cond ins st).1
            (in_loop_with ins.current_ip
              (loop_cond_step cond ins st).2.2)).1.jump_back_to ins.current_ip) ∧
      (emit (.conditionalLoop cond body) ins st).2 =
        { (loop_cond_step cond ins st).2.1 with
          is_returning_value := st.is_returning_value } ∧
      (∀ p ∈ (emit body (loop_cond_step cond ins st).1
          (in_loop_with ins.current_ip
            (loop_cond_step cond ins st).2.2)).2.enclosing_loop_end_placeholders,
        list_slice (emit (.conditionalLoop cond body) ins st).1.bytecode.bytes
          p.pos 4 =
          u32_be (emit (.conditionalLoop cond body) ins st).1.current_ip) ∧
      (∀ (i : Instructions) (s : EmissionState),
        emit .continueExpr i s = (i.jump_back_to s.enclosing_loop_start, s)) ∧
      (∀ (i : Instructions) (n : Nat),
        (i.jump_back_to n).bytecode.bytes =
          i.bytecode.bytes ++ [Opcode.Jump.code] ++ u32_be n) ∧
      (∀ (i : Instructions) (s : EmissionState),
        (emit .breakExpr i s).1.bytecode.bytes =
            i.bytecode.bytes ++ [Opcode.Jump.code] ++ [0, 0, 0, 0] ∧
          (emit .breakExpr i s).2 =
            { s with enclosing_loop_end_placeholders :=
              s.enclosing_loop_end_placeholders ++
                [⟨(i.bytecode.len + 1) % u32_size⟩] }) := by
  have hC := emit_invariants.2.1 cond ins st
  have hB := emit_invariants.1 body (loop_cond_step cond ins st).1
    (in_loop_with ins.current_ip (loop_cond_step cond ins st).2.2)
  unfold cond_inv at hC
  unfold emit_inv at hB
  obtain ⟨hC1, hC2, hC3⟩ := hC
  obtain ⟨hB1, hB2, hB3⟩ := hB
  rw [emit_loop_eq] at hfin ⊢
  dsimp only at hfin ⊢
  have hjle := foldl_patch_le_len
    (emit body (loop_cond_step cond ins st).1
      (in_loop_with ins.current_ip
        (loop_cond_step cond ins st).2.2)).2.enclosing_loop_end_placeholders
    ((emit body (loop_cond_step cond ins st).1
      (in_loop_with ins.current_ip
        (loop_cond_step cond ins st).2.2)).1.jump_back_to ins.current_ip)
  rw [jump_back_to_len] at hjle
  have hBfin : (emit body (loop_cond_step cond ins st).1
      (in_loop_with ins.current_ip
        (loop_cond_step cond ins st).2.2)).1.bytecode.len < u32_size := by
    omega
  have hLfin : (loop_cond_step cond ins st).1.bytecode.len < u32_size := by
    omega
  obtain ⟨hOk1, hOkF⟩ := hC3 hLfin hok
  have hOkB := hB3 hBfin hOkF
  have hin : ∀ p ∈ (emit body (loop_cond_step cond ins st).1
      (in_loop_with ins.current_ip
        (loop_cond_step cond ins st).2.2)).2.enclosing_loop_end_placeholders,
      p.pos + 4 ≤ ((emit body (loop_cond_step cond ins st).1
        (in_loop_with ins.current_ip
          (loop_cond_step cond ins st).2.2)).1.jump_back_to
        ins.current_ip).bytecode.len := by
    intro p hp
    rw [jump_back_to_len]
    exact le_trans (hOkB.1 p hp) (by omega)
  refine ⟨rfl, rfl, ?_, ?_, ?_, ?_⟩
  · intro p hp
    rw [foldl_patch_current_ip _ _ hin]
    exact foldl_patch_slices _ _ hin hOkB.2 p hp
  · intro i s
    exact emit_continue_eq i s
  · intro i n
    exact jump_back_to_bytes i n
  · intro i s
    refine ⟨rfl, ?_⟩
    rw [emit_break_eq]
    have hph : (i.emit_jump Opcode.Jump).1 =
        (⟨(i.bytecode.len + 1) % u32_size⟩ : Placeholder) := by
      conv_rhs => rw [← emit_jump_ph_pos i Opcode.Jump]
    rw [hph]

/-- Witness for C7: a loop `while 1 { break }` emitted into an empty
buffer with no enclosing loop. -/
theorem emit_loop_continue_break_spec_witness :
    (emit (.conditionalLoop (some (.literal 1)) .breakExpr)
        (Instructions.wrap ⟨[]⟩) ⟨0, [], false, false⟩).1 =
        (emit .breakExpr
          (loop_cond_step (some (.literal 1)) (Instructions.wrap ⟨[]⟩)
            ⟨0, [], false, false⟩).1
          (in_loop_with (Instructions.wrap (Bytecode.mk [])).current_ip
            (loop_cond_step (some (.literal 1)) (Instructions.wrap ⟨[]⟩)
              ⟨0, [], false, false⟩).2.2)).2.enclosing_loop_end_placeholders.foldl
          (fun i p => i.patch_jump p)
          ((emit .breakExpr
            (loop_cond_step (some (.literal 1)) (Instructions.wrap ⟨[]⟩)
              ⟨0, [], false, false⟩).1
            (in_loop_with (Instructions.wrap (Bytecode.mk [])).current_ip
              (loop_cond_step (some (.literal 1)) (Instructions.wrap ⟨[]⟩)
                ⟨0, [], false, false⟩).2.2)).1.jump_back_to
            (Instructions.wrap (Bytecode.mk [])).current_ip) ∧
      (emit (.conditionalLoop (some (.literal 1)) .breakExpr)
          (Instructions.wrap ⟨[]⟩) ⟨0, [], false, false⟩).2 =
        { (loop_cond_step (some (.literal 1)) (Instructions.wrap ⟨[]⟩)
            ⟨0, [], false, false⟩).2.1 with
          is_returning_value :=
            (EmissionState.mk 0 [] false false).is_returning_value } ∧
      (∀ p ∈ (emit .breakExpr
          (loop_cond_step (some (.literal 1)) (Instructions.wrap ⟨[]⟩)
            ⟨0, [], false, false⟩).1
          (in_loop_with (Instructions.wrap (Bytecode.mk [])).current_ip
            (loop_cond_step (some (.literal 1)) (Instructions.wrap ⟨[]⟩)
              ⟨0, [], false, false⟩).2.2)).2.enclosing_loop_end_placeholders,
        list_slice (emit (.conditionalLoop (some (.literal 1)) .breakExpr)
            (Instructions.wrap ⟨[]⟩) ⟨0, [], false, false⟩).1.bytecode.bytes
          p.pos 4 =
          u32_be (emit (.conditionalLoop (some (.literal 1)) .breakExpr)
            (Instructions.wrap ⟨[]⟩) ⟨0, [], false, false⟩).1.current_ip) ∧
      (∀ (i : Instructions) (s : EmissionState),
        emit .continueExpr i s = (i.jump_back_to s.enclosing_loop_start, s)) ∧
      (∀ (i : Instructions) (n : Nat),
        (i.jump_back_to n).bytecode.bytes =
          i.bytecode.bytes ++ [Opcode.Jump.code] ++ u32_be n) ∧
      (∀ (i : Instructions) (s : EmissionState),
        (emit .breakExpr i s).1.bytecode.bytes =
            i.bytecode.bytes ++ [Opcode.Jump.code] ++ [0, 0, 0, 0] ∧
          (emit .breakExpr i s).2 =
            { s with enclosing_loop_end_placeholders :=
              s.enclosing_loop_end_placeholders ++
                [⟨(i.bytecode.len + 1) % u32_size⟩] }) :=
  emit_loop_continue_break_spec (some (.literal 1)) .breakExpr
    (Instructions.wrap ⟨[]⟩) ⟨0, [], false, false⟩ (by decide) (phs_ok_nil _)

/-! ## Type ascription (`steps/typing.rs`)

The typing step's supporting modules `types/ty.rs`, `types/hir.rs`,
`types/operator.rs`, `diagnostic.rs` and `steps/typing/coercion.rs` are not
under `src/`; their definitions below are modelled from the spec (§3
Types/HIR, §4.3–4.5, §6 diagnostic sink, §7 taxonomy) as noted on each. -/

/-- A source span `(start, end)` (`SourceSegment`). -/
abbrev Seg := Nat × Nat

/-- Modelled from the spec: the primitive-like types of §3 (`types/ty.rs`
is not under `src/`); `Function`/`Polytype`/`Instantiated` do not occur in
the embedded fragment. -/
inductive Ty where
  | nothing | unit | bool | exitCode | int | float | string | error | unknown
  deriving Repr, DecidableEq

/-- The display name of a type, as used in diagnostic messages. -/
def Ty.display : Ty → String
  | .nothing => "Nothing"
  | .unit => "Unit"
  | .bool => "Bool"
  | .exitCode => "ExitCode"
  | .int => "Int"
  | .float => "Float"
  | .string => "String"
  | .error => "Error"
  | .unknown => "Unknown"

/-- `LiteralValue` from `ast/src/value.rs` (`Float` carries its bit
pattern; only the variant matters to typing). -/
inductive LiteralValue where
  | int (v : Int)
  | float (bits : Nat)
  | str (s : String)
  | bool (b : Bool)
  deriving Repr, DecidableEq

/-- Modelled from the spec: binary operator tokens (`ast::operation` is not
under `src/`); §4.4–§4.5 name the derived methods `plus`/`sub`/`mul`/`div`/
`mod` and `eq`/`lt`/`le`/`gt`/`ge`. -/
inductive BinaryOperator where
  | Plus | Minus | Times | Divide | Modulo
  | EqualEqual | Less | LessEqual | Greater | GreaterEqual
  deriving Repr, DecidableEq

/-- Modelled from the spec: `name_operator_method` from
`types/operator.rs` (not under `src/`): the operator token's method name
(§4.4: "operator name derived from operator token, e.g. `+` → `plus`"). -/
def name_operator_method : BinaryOperator → String
  | .Plus => "plus"
  | .Minus => "sub"
  | .Times => "mul"
  | .Divide => "div"
  | .Modulo => "mod"
  | .EqualEqual => "eq"
  | .Less => "lt"
  | .LessEqual => "le"
  | .Greater => "gt"
  | .GreaterEqual => "ge"

/-- Modelled from the spec: the diagnostic identifiers of §7
(`diagnostic.rs` is not under `src/`). -/
inductive DiagnosticID where
  | importResolution | shadowedImport | symbolConflictsWithModule
  | useBetweenExprs | unsupportedFeature | invalidSymbolPath
  | unknownSymbol | invalidSymbol
  | typeMismatch | unknownType | cannotInfer | incompatibleCast
  | cannotReassign | unknownMethod | invalidTypeArguments
  | invalidBreakOrContinue
  deriving Repr, DecidableEq

/-- Modelled from the spec: an observation `(sourceId, span, label?)`
attached to a diagnostic (§6; the reef id is constant in the embedded
single-reef fragment and omitted). -/
structure Observation where
  source : Nat
  segment : Seg
  message : Option String
  deriving Repr, DecidableEq

/-- Modelled from the spec: a diagnostic with its identifier, free-form
message and observations (§6). -/
structure Diagnostic where
  id : DiagnosticID
  message : String
  observations : List Observation
  deriving Repr, DecidableEq

/-- The AST fragment the typing claims range over (`ast::Expr` variants
`Literal`, `Binary`, `If`, `Block`, `While`, `Loop`, `Continue`,
`Break`). -/
inductive MiniExpr where
  | literal (parsed : LiteralValue) (segment : Seg)
  | binary (left : MiniExpr) (op : BinaryOperator) (right : MiniExpr) (segment : Seg)
  | ifExpr (condition : MiniExpr) (success_branch : MiniExpr)
      (fail_branch : Option MiniExpr) (segment : Seg)
  | block (expressions : List MiniExpr) (segment : Seg)
  | whileLoop (condition : MiniExpr) (body : MiniExpr) (segment : Seg)
  | loopExpr (body : MiniExpr) (segment : Seg)
  | continueExpr (segment : Seg)
  | breakExpr (segment : Seg)

/-- The source span of an expression (`SourceSegmentHolder::segment`). -/
def MiniExpr.segment : MiniExpr → Seg
  | .literal _ s => s
  | .binary _ _ _ s => s
  | .ifExpr _ _ _ s => s
  | .block _ s => s
  | .whileLoop _ _ s => s
  | .loopExpr _ s => s
  | .continueExpr s => s
  | .breakExpr s => s

mutual
/-- Modelled from the spec: `TypedExpr` from `types/hir.rs` (not under
`src/`): a kind, a type and a span (§3 HIR). -/
inductive TypedExpr where
  | mk (kind : ExprKind) (ty : Ty) (segment : Seg)

/-- Modelled from the spec: the `ExprKind` variants reachable by the
embedded fragment (§3 HIR); `definitionId` is `some nativeId` for a
resolved native method and `none` for `Definition::error()`. -/
inductive ExprKind where
  | literal (value : LiteralValue)
  | methodCall (callee : TypedExpr) (arguments : List TypedExpr)
      (definitionId : Option Nat)
  | conditional (condition : TypedExpr) (thenBranch : TypedExpr)
      (otherwise : Option TypedExpr)
  | conditionalLoop (condition : Option TypedExpr) (body : TypedExpr)
  | convert (inner : TypedExpr) (into : Ty)
  | block (expressions : List TypedExpr)
  | continueK
  | breakK
end

/-- The type of a typed expression. -/
def TypedExpr.ty : TypedExpr → Ty
  | .mk _ t _ => t

/-- The kind of a typed expression. -/
def TypedExpr.kind : TypedExpr → ExprKind
  | .mk k _ _ => k

/-- The span of a typed expression. -/
def TypedExpr.segment : TypedExpr → Seg
  | .mk _ _ s => s

/-- `TypingState` from `steps/typing.rs`: the current source, reef,
`local_type` flag (is the subtree's value observed) and `in_loop` flag. -/
structure TypingState where
  source : Nat
  reef : Nat
  local_type : Bool
  in_loop : Bool
  deriving Repr, DecidableEq

/-- `TypingState::with_local_type`. -/
def TypingState.with_local_type (s : TypingState) : TypingState :=
  { s with local_type := true }

/-- `TypingState::without_local_type`. -/
def TypingState.without_local_type (s : TypingState) : TypingState :=
  { s with local_type := false }

/-- `TypingState::with_in_loop`. -/
def TypingState.with_in_loop (s : TypingState) : TypingState :=
  { s with in_loop := true }

/-- `MethodType`: parameter types, return type and the native definition
id of a method of the lang reef. -/
structure MethodType where
  parameters : List Ty
  return_type : Ty
  definitionId : Nat
  deriving Repr, DecidableEq

/-- Modelled from the spec: the operator methods of the lang reef's native
catalog (§4.5; the natives module is not under `src/`): `plus`/`sub`/`mul`/
`div`/`mod` on `Int → Int` and `Float → Float`, comparisons returning
`Bool`, `String::concat(String): String` and `String::eq`.  `get_methods`
returns the overloads of `name` on the type, or `none` when the name is
absent. -/
def get_methods (t : Ty) (name : String) : Option (List MethodType) :=
  match t with
  | .int =>
    if name = "plus" then some [⟨[.int], .int, 0⟩]
    else if name = "sub" then some [⟨[.int], .int, 1⟩]
    else if name = "mul" then some [⟨[.int], .int, 2⟩]
    else if name = "div" then some [⟨[.int], .int, 3⟩]
    else if name = "mod" then some [⟨[.int], .int, 4⟩]
    else if name = "eq" then some [⟨[.int], .bool, 5⟩]
    else if name = "lt" then some [⟨[.int], .bool, 6⟩]
    else if name = "le" then some [⟨[.int], .bool, 7⟩]
    else if name = "gt" then some [⟨[.int], .bool, 8⟩]
    else if name = "ge" then some [⟨[.int], .bool, 9⟩]
    else none
  | .float =>
    if name = "plus" then some [⟨[.float], .float, 10⟩]
    else if name = "sub" then some [⟨[.float], .float, 11⟩]
    else if name = "mul" then some [⟨[.float], .float, 12⟩]
    else if name = "div" then some [⟨[.float], .float, 13⟩]
    else if name = "eq" then some [⟨[.float], .bool, 14⟩]
    else if name = "lt" then some [⟨[.float], .bool, 15⟩]
    else if name = "le" then some [⟨[.float], .bool, 16⟩]
    else if name = "gt" then some [⟨[.float], .bool, 17⟩]
    else if name = "ge" then some [⟨[.float], .bool, 18⟩]
    else none
  | .string =>
    if name = "concat" then some [⟨[.string], .string, 19⟩]
    else if name = "eq" then some [⟨[.string], .bool, 20⟩]
    else none
  | _ => none

/-- `find_operand_implementation` from `steps/typing/function.rs` (lines
661–683): the first overload whose single parameter type equals the right
operand's type. -/
def find_operand_implementation (methods : List MethodType) (right : TypedExpr) :
    Option MethodType :=
  match methods with
  | [] => none
  | method :: rest =>
    match method.parameters with
    | [param] =>
      if param = right.ty then some method
      else find_operand_implementation rest right
    | _ => find_operand_implementation rest right

/-- Modelled from the spec: `convert_description` (the coercion module
`steps/typing/coercion.rs` is not under `src/`): a source type converts
into a target when they are equal, either side is `Error`/`Unknown` (§3:
"compatible with anything to cut error cascades"), the source is `Nothing`
(subtype of every type), or by the `Int <: Float` widening. -/
def convert_description (target source : Ty) : Bool :=
  source = target || source = .error || source = .unknown ||
    target = .error || target = .unknown || source = .nothing ||
    (source = .int && target = .float)

/-- Modelled from the spec: `convert_expression` (coercion module not
under `src/`): returns the expression unchanged when it already has the
target type, wraps it in a `Convert` node carrying the target type when a
conversion applies (§4.4: "`convert` nodes are inserted to unify
branches"), and fails otherwise. -/
def convert_expression (expr : TypedExpr) (into : Ty) : Option TypedExpr :=
  if expr.ty = into then some expr
  else if convert_description into expr.ty then
    some (.mk (.convert expr into) into expr.segment)
  else none

/-- Modelled from the spec: `convert_many` (coercion module not under
`src/`): folds the types into one type every one of them converts into
(§4.4: "`then` and `otherwise?` must unify (both widened via
`convert_many`)"). -/
def convert_many (tys : List Ty) : Option Ty :=
  match tys with
  | [] => none
  | t :: rest =>
    rest.foldl
      (fun acc u => acc.bind (fun a =>
        if convert_description a u then some a
        else if convert_description u a then some u
        else none))
      (some t)

/-- `coerce_condition`, following `typing/lower.rs` lines 117–145 (the
older typing's coercion module is not under `src/`): an `ExitCode`
condition gets an explicit cast node to `Bool`; the resulting type is then
checked against `Bool`, reporting a `TypeMismatch` and returning the
expression unchanged on failure. -/
def coerce_condition (expr : TypedExpr) (state : TypingState) :
    TypedExpr × List Diagnostic :=
  let expr :=
    if expr.ty = .exitCode then
      TypedExpr.mk (.convert expr .bool) .bool expr.segment
    else expr
  if convert_description .bool expr.ty then (expr, [])
  else
    (expr,
     [⟨.typeMismatch,
       "expected `Bool`, found `" ++ expr.ty.display ++ "`",
       [⟨state.source, expr.segment, none⟩]⟩])

/-- `ascribe_literal` from `steps/typing.rs` (lines 169–181). -/
def ascribe_literal (lit : LiteralValue) (segment : Seg) : TypedExpr :=
  let ty : Ty :=
    match lit with
    | .int _ => .int
    | .float _ => .float
    | .str _ => .string
    | .bool _ => .bool
  .mk (.literal lit) ty segment

/-- `ascribe_continue_or_break` from `steps/typing.rs` (lines 1028–1053):
typed `Nothing`; outside a loop, one `InvalidBreakOrContinue` diagnostic
pointing at the expression. -/
def ascribe_continue_or_break (isContinue : Bool) (segment : Seg)
    (source : Nat) (in_loop : Bool) : TypedExpr × List Diagnostic :=
  let kind_name := if isContinue then "continue" else "break"
  let kind : ExprKind := if isContinue then .continueK else .breakK
  let diags : List Diagnostic :=
    if in_loop then []
    else
      [⟨.invalidBreakOrContinue,
        "`" ++ kind_name ++ "` must be declared inside a loop",
        [⟨source, segment, none⟩]⟩]
  (.mk kind .nothing segment, diags)

theorem binop_sizeOf_pos (op : BinaryOperator) : 1 ≤ sizeOf op := by
  cases op <;> simp

theorem seg_sizeOf_pos (s : Seg) : 1 ≤ sizeOf s := by
  obtain ⟨a, b⟩ := s
  simp
  omega

theorem opt_sizeOf_pos {α : Type} [SizeOf α] (o : Option α) : 1 ≤ sizeOf o := by
  cases o <;> simp <;> omega

mutual
/-- `ascribe_types` from `steps/typing.rs` (dispatch at lines 1058–1110),
restricted to the embedded fragment.  Diagnostics are returned as the list
appended by the call, in emission order. -/
def ascribe_types : MiniExpr → TypingState → TypedExpr × List Diagnostic
  | .literal v seg, _ => (ascribe_literal v seg, [])
  | .binary l op r seg, state => ascribe_binary l op r seg state
  | .ifExpr c t e seg, state => ascribe_if c t e seg state
  | .block exprs seg, state => ascribe_block exprs seg state
  | .whileLoop c body seg, state => ascribe_loop (some c) body seg state
  | .loopExpr body seg, state => ascribe_loop none body seg state
  | .continueExpr seg, state =>
    ascribe_continue_or_break true seg state.source state.in_loop
  | .breakExpr seg, state =>
    ascribe_continue_or_break false seg state.source state.in_loop
  termination_by e _ => sizeOf e
  decreasing_by all_goals simp_wf <;> first
    | omega
    | (have hop := binop_sizeOf_pos op; have hseg := seg_sizeOf_pos seg; omega)
    | (have hseg := seg_sizeOf_pos seg; omega)

/-- `ascribe_binary` from `steps/typing.rs` (lines 636–681): ascribe both
operands, look up the operator method on the left type, and either take its
return type or report `UnknownMethod "Undefined operator"` and type the
node `Error`. -/
def ascribe_binary (l : MiniExpr) (op : BinaryOperator) (r : MiniExpr)
    (seg : Seg) (state : TypingState) : TypedExpr × List Diagnostic :=
  let left_res := ascribe_types l state
  let right_res := ascribe_types r state
  let name := name_operator_method op
  let method := (get_methods left_res.1.ty name).bind
    (fun methods => find_operand_implementation methods right_res.1)
  let tyAndDiags : Ty × List Diagnostic :=
    match method with
    | some m => (m.return_type, [])
    | none =>
      (.error,
       [⟨.unknownMethod, "Undefined operator",
         [⟨state.source, seg,
           some ("No operator `" ++ name ++ "` between type `" ++
             left_res.1.ty.display ++ "` and `" ++
             right_res.1.ty.display ++ "`")⟩]⟩])
  (.mk (.methodCall left_res.1 [right_res.1] (method.map (·.definitionId)))
    tyAndDiags.1 seg,
   left_res.2 ++ right_res.2 ++ tyAndDiags.2)
  termination_by sizeOf l + sizeOf r + 1
  decreasing_by all_goals simp_wf <;> first
    | omega
    | (have hop := binop_sizeOf_pos op; have hseg := seg_sizeOf_pos seg; omega)
    | (have hseg := seg_sizeOf_pos seg; omega)

/-- `ascribe_if` from `steps/typing.rs` (lines 830–904): the condition is
ascribed then coerced to `Bool`; both branches are ascribed with the
caller's state.  Under `local_type`, the branch types (with `Unit` for a
missing `else`) are unified via `convert_many` and conversions are applied
to both branches; on failure, `TypeMismatch` "`if` and `else` have
incompatible types" with the branch types as observations, and type
`Error`.  Without `local_type` the conditional is typed `Unit`. -/
def ascribe_if (c thenB : MiniExpr) (elseB : Option MiniExpr) (seg : Seg)
    (state : TypingState) : TypedExpr × List Diagnostic :=
  let cond_res := ascribe_types c state
  let cond := coerce_condition cond_res.1 state
  let then_res := ascribe_types thenB state
  let else_res := match elseB with
    | some e => some (ascribe_types e state)
    | none => none
  let else_diags := match else_res with
    | some r => r.2
    | none => []
  let else_ty := match else_res with
    | some r => r.1.ty
    | none => Ty.unit
  if state.local_type then
    match convert_many [then_res.1.ty, else_ty] with
    | some ty =>
      let then2 := (convert_expression then_res.1 ty).getD then_res.1
      let otherwise2 := else_res.map
        (fun r => (convert_expression r.1 ty).getD r.1)
      (.mk (.conditional cond.1 then2 otherwise2) ty seg,
       cond_res.2 ++ cond.2 ++ then_res.2 ++ else_diags)
    | none =>
      let baseObs : List Observation :=
        [⟨state.source, thenB.segment,
          some ("Found `" ++ then_res.1.ty.display ++ "`")⟩]
      let obs := match else_res with
        | some r =>
          baseObs ++ [⟨state.source, r.1.segment,
            some ("Found `" ++ r.1.ty.display ++ "`")⟩]
        | none => baseObs
      (.mk (.conditional cond.1 then_res.1 (else_res.map (·.1))) .error seg,
       cond_res.2 ++ cond.2 ++ then_res.2 ++ else_diags ++
         [⟨.typeMismatch, "`if` and `else` have incompatible types", obs⟩])
  else
    (.mk (.conditional cond.1 then_res.1 (else_res.map (·.1))) .unit seg,
     cond_res.2 ++ cond.2 ++ then_res.2 ++ else_diags)
  termination_by sizeOf c + sizeOf thenB + sizeOf elseB + 1
  decreasing_by all_goals simp_wf <;> first
    | omega
    | (have hop := binop_sizeOf_pos op; have hseg := seg_sizeOf_pos seg; omega)
    | (have hseg := seg_sizeOf_pos seg; omega)

/-- `ascribe_block` from `steps/typing.rs` (lines 428–460): each
expression in sequence, all but the last with `local_type` cleared; the
block's type is the last expression's type, or `Unit` when empty. -/
def ascribe_block (exprs : List MiniExpr) (seg : Seg) (state : TypingState) :
    TypedExpr × List Diagnostic :=
  let r := ascribe_block_list exprs state
  (.mk (.block r.1) (((r.1.getLast?).map TypedExpr.ty).getD .unit) seg, r.2)
  termination_by sizeOf exprs + 1
  decreasing_by all_goals simp_wf <;> first
    | omega
    | (have hop := binop_sizeOf_pos op; have hseg := seg_sizeOf_pos seg; omega)
    | (have hseg := seg_sizeOf_pos seg; omega)

/-- The iteration of `ascribe_block`: a peeked non-last expression is
ascribed with `without_local_type`, the last with the caller's state. -/
def ascribe_block_list : List MiniExpr → TypingState →
    List TypedExpr × List Diagnostic
  | [], _ => ([], [])
  | [e], state =>
    let r := ascribe_types e state
    ([r.1], r.2)
  | e :: rest, state =>
    let r := ascribe_types e state.without_local_type
    let rr := ascribe_block_list rest state
    (r.1 :: rr.1, r.2 ++ rr.2)
  termination_by l _ => sizeOf l
  decreasing_by all_goals simp_wf <;> first
    | omega
    | (have hop := binop_sizeOf_pos op; have hseg := seg_sizeOf_pos seg; omega)
    | (have hseg := seg_sizeOf_pos seg; omega)

/-- `ascribe_loop` from `steps/typing.rs` (lines 984–1026): a `While`
condition is ascribed with `with_local_type` then coerced; the body with
`without_local_type().with_in_loop()`; the loop is typed `Unit`. -/
def ascribe_loop (cond : Option MiniExpr) (body : MiniExpr) (seg : Seg)
    (state : TypingState) : TypedExpr × List Diagnostic :=
  let cres : Option TypedExpr × List Diagnostic :=
    match cond with
    | some c =>
      let rc := ascribe_types c state.with_local_type
      let cc := coerce_condition rc.1 state
      (some cc.1, rc.2 ++ cc.2)
    | none => (none, [])
  let rb := ascribe_types body state.without_local_type.with_in_loop
  (.mk (.conditionalLoop cres.1 rb.1) .unit seg, cres.2 ++ rb.2)
  termination_by sizeOf cond + sizeOf body
  decreasing_by all_goals simp_wf <;> first
    | omega
    | (have hop := binop_sizeOf_pos op; have hseg := seg_sizeOf_pos seg; omega)
    | (have hseg := seg_sizeOf_pos seg; omega)
    | (have hcond := opt_sizeOf_pos cond; omega)
end

mutual
/-- The types of the leaf subexpressions of a typed expression (nodes with
no subexpressions). -/
def leaf_types : TypedExpr → List Ty
  | .mk k t _ => leaf_types_kind k t

/-- Leaf types of a node given its kind and type. -/
def leaf_types_kind : ExprKind → Ty → List Ty
  | .literal _, t => [t]
  | .continueK, t => [t]
  | .breakK, t => [t]
  | .methodCall callee args _, _ => leaf_types callee ++ leaf_types_list args
  | .conditional c th o, _ =>
    leaf_types c ++ leaf_types th ++
      (match o with
       | some e => leaf_types e
       | none => [])
  | .conditionalLoop c b, _ =>
    (match c with
     | some e => leaf_types e
     | none => []) ++ leaf_types b
  | .convert inner _, _ => leaf_types inner
  | .block es, _ => leaf_types_list es

/-- Leaf types of a list of typed expressions. -/
def leaf_types_list : List TypedExpr → List Ty
  | [] => []
  | e :: rest => leaf_types e ++ leaf_types_list rest
end

theorem find_operand_implementation_mem (ms : List MethodType) (r : TypedExpr)
    (m : MethodType) (h : find_operand_implementation ms r = some m) : m ∈ ms := by
  induction ms with
  | nil => simp [find_operand_implementation] at h
  | cons a rest ih =>
    rw [find_operand_implementation] at h
    rcases hpar : a.parameters with _ | ⟨p, ps⟩
    · rw [hpar] at h
      exact List.mem_cons_of_mem a (ih h)
    · rcases ps with _ | ⟨q, qs⟩
      · rw [hpar] at h
        dsimp only at h
        by_cases hp : p = r.ty
        · rw [if_pos hp] at h
          injection h with h
          exact h ▸ List.mem_cons_self a rest
        · rw [if_neg hp] at h
          exact List.mem_cons_of_mem a (ih h)
      · rw [hpar] at h
        exact List.mem_cons_of_mem a (ih h)

set_option maxHeartbeats 8000000 in
theorem get_methods_return_ne_error (t : Ty) (name : String) (ms : List MethodType)
    (h : get_methods t name = some ms) : ∀ m ∈ ms, m.return_type ≠ .error := by
  intro m hm
  cases t <;> simp only [get_methods] at h
  all_goals
    first
      | exact Option.noConfusion h
      | (split_ifs at h <;>
          first
            | exact Option.noConfusion h
            | (injection h with h2
               subst h2
               rw [List.mem_singleton] at hm
               subst hm
               decide))

theorem convert_many_pair (a b u : Ty) (h : convert_many [a, b] = some u) :
    u = a ∨ u = b := by
  simp only [convert_many, List.foldl, Option.bind] at h
  split_ifs at h <;> (injection h with h2; subst h2)
  · exact Or.inl rfl
  · exact Or.inr rfl

theorem convert_many_pair_desc (a b u : Ty) (h : convert_many [a, b] = some u) :
    (u = a ∨ convert_description u a = true) ∧
      (u = b ∨ convert_description u b = true) := by
  simp only [convert_many, List.foldl, Option.bind] at h
  split_ifs at h with h1 h2 <;> (injection h with h3; subst h3)
  · exact ⟨Or.inl rfl, Or.inr h1⟩
  · exact ⟨Or.inr h2, Or.inl rfl⟩

theorem convert_expression_getD_ty (e : TypedExpr) (u : Ty)
    (h : e.ty = u ∨ convert_description u e.ty = true) :
    ((convert_expression e u).getD e).ty = u := by
  unfold convert_expression
  split_ifs with h1 h2
  · simpa using h1
  · simp [TypedExpr.ty]
  · rcases h with h | h
    · exact absurd h h1
    · exact absurd h (by simp [h2])

theorem leaf_types_convert_getD (e : TypedExpr) (u : Ty) :
    leaf_types ((convert_expression e u).getD e) = leaf_types e := by
  unfold convert_expression
  split_ifs with h1 h2
  · rfl
  · show leaf_types (.mk (.convert e u) u e.segment) = leaf_types e
    rw [leaf_types, leaf_types_kind]
  · rfl

theorem leaf_types_list_subset (l : List TypedExpr) (te : TypedExpr)
    (hte : te ∈ l) : ∀ t ∈ leaf_types te, t ∈ leaf_types_list l := by
  intro t ht
  induction l with
  | nil => cases hte
  | cons a rest ih =>
    rw [leaf_types_list]
    rcases List.mem_cons.1 hte with rfl | hmem
    · exact List.mem_append_left _ ht
    · exact List.mem_append_right _ (ih hmem)

theorem ascribe_types_continue_eq (seg : Seg) (st : TypingState) :
    ascribe_types (.continueExpr seg) st =
      ascribe_continue_or_break true seg st.source st.in_loop := by
  conv_lhs => unfold ascribe_types

theorem ascribe_types_break_eq (seg : Seg) (st : TypingState) :
    ascribe_types (.breakExpr seg) st =
      ascribe_continue_or_break false seg st.source st.in_loop := by
  conv_lhs => unfold ascribe_types

theorem ascribe_types_literal_eq (v : LiteralValue) (seg : Seg) (st : TypingState) :
    ascribe_types (.literal v seg) st = (ascribe_literal v seg, []) := by
  conv_lhs => unfold ascribe_types

theorem ascribe_types_binary_eq (l : MiniExpr) (op : BinaryOperator) (r : MiniExpr)
    (seg : Seg) (st : TypingState) :
    ascribe_types (.binary l op r seg) st = ascribe_binary l op r seg st := by
  conv_lhs => unfold ascribe_types

theorem ascribe_types_if_eq (c t : MiniExpr) (e : Option MiniExpr) (seg : Seg)
    (st : TypingState) :
    ascribe_types (.ifExpr c t e seg) st = ascribe_if c t e seg st := by
  conv_lhs => unfold ascribe_types

theorem ascribe_types_block_eq (exprs : List MiniExpr) (seg : Seg) (st : TypingState) :
    ascribe_types (.block exprs seg) st = ascribe_block exprs seg st := by
  conv_lhs => unfold ascribe_types

theorem ascribe_types_while_eq (c body : MiniExpr) (seg : Seg) (st : TypingState) :
    ascribe_types (.whileLoop c body seg) st = ascribe_loop (some c) body seg st := by
  conv_lhs => unfold ascribe_types

theorem ascribe_types_loop_eq (body : MiniExpr) (seg : Seg) (st : TypingState) :
    ascribe_types (.loopExpr body seg) st = ascribe_loop none body seg st := by
  conv_lhs => unfold ascribe_types

theorem ascribe_block_eq (exprs : List MiniExpr) (seg : Seg) (state : TypingState) :
    ascribe_block exprs seg state =
      (.mk (.block (ascribe_block_list exprs state).1)
        ((((ascribe_block_list exprs state).1.getLast?).map TypedExpr.ty).getD .unit)
        seg,
       (ascribe_block_list exprs state).2) := by
  conv_lhs => unfold ascribe_block

theorem ascribe_block_list_nil_eq (state : TypingState) :
    ascribe_block_list [] state = ([], []) := by
  conv_lhs => unfold ascribe_block_list

theorem ascribe_block_list_one_eq (e : MiniExpr) (state : TypingState) :
    ascribe_block_list [e] state =
      ([(ascribe_types e state).1], (ascribe_types e state).2) := by
  conv_lhs => unfold ascribe_block_list

theorem ascribe_block_list_cons_eq (e e2 : MiniExpr) (rest : List MiniExpr)
    (state : TypingState) :
    ascribe_block_list (e :: e2 :: rest) state =
      ((ascribe_types e state.without_local_type).1 ::
          (ascribe_block_list (e2 :: rest) state).1,
       (ascribe_types e state.without_local_type).2 ++
          (ascribe_block_list (e2 :: rest) state).2) := by
  conv_lhs => unfold ascribe_block_list

theorem ascribe_loop_some_eq (c body : MiniExpr) (seg : Seg) (state : TypingState) :
    ascribe_loop (some c) body seg state =
      (.mk (.conditionalLoop
          (some (coerce_condition (ascribe_types c state.with_local_type).1 state).1)
          (ascribe_types body state.without_local_type.with_in_loop).1)
        .unit seg,
       (ascribe_types c state.with_local_type).2 ++
         (coerce_condition (ascribe_types c state.with_local_type).1 state).2 ++
         (ascribe_types body state.without_local_type.with_in_loop).2) := by
  conv_lhs => unfold ascribe_loop

theorem ascribe_loop_none_eq (body : MiniExpr) (seg : Seg) (state : TypingState) :
    ascribe_loop none body seg state =
      (.mk (.conditionalLoop none
          (ascribe_types body state.without_local_type.with_in_loop).1)
        .unit seg,
       (ascribe_types body state.without_local_type.with_in_loop).2) := by
  conv_lhs => unfold ascribe_loop
  rfl

/-- The leaf-to-root error propagation, proved for every function of the
ascription mutual block at once: whenever a call appends no diagnostic and
every leaf of its result carries a type other than `Error`, the result's
root type is not `Error` either. -/
theorem ascribe_no_error_master :
    (∀ (e : MiniExpr) (st : TypingState),
      (ascribe_types e st).2 = [] →
      (∀ t ∈ leaf_types (ascribe_types e st).1, t ≠ .error) →
      (ascribe_types e st).1.ty ≠ .error) ∧
    (∀ (cond : Option MiniExpr) (body : MiniExpr) (seg : Seg) (st : TypingState),
      (ascribe_loop cond body seg st).2 = [] →
      (∀ t ∈ leaf_types (ascribe_loop cond body seg st).1, t ≠ .error) →
      (ascribe_loop cond body seg st).1.ty ≠ .error) ∧
    (∀ (exprs : List MiniExpr) (seg : Seg) (st : TypingState),
      (ascribe_block exprs seg st).2 = [] →
      (∀ t ∈ leaf_types (ascribe_block exprs seg st).1, t ≠ .error) →
      (ascribe_block exprs seg st).1.ty ≠ .error) ∧
    (∀ (l : List MiniExpr) (st : TypingState),
      (ascribe_block_list l st).2 = [] →
      ∀ te ∈ (ascribe_block_list l st).1,
        (∀ t ∈ leaf_types te, t ≠ .error) → te.ty ≠ .error) ∧
    (∀ (c thenB : MiniExpr) (elseB : Option MiniExpr) (seg : Seg) (st : TypingState),
      (ascribe_if c thenB elseB seg st).2 = [] →
      (∀ t ∈ leaf_types (ascribe_if c thenB elseB seg st).1, t ≠ .error) →
      (ascribe_if c thenB elseB seg st).1.ty ≠ .error) ∧
    (∀ (l : MiniExpr) (op : BinaryOperator) (r : MiniExpr) (seg : Seg)
        (st : TypingState),
      (ascribe_binary l op r seg st).2 = [] →
      (∀ t ∈ leaf_types (ascribe_binary l op r seg st).1, t ≠ .error) →
      (ascribe_binary l op r seg st).1.ty ≠ .error) := by
  refine ascribe_types.mutual_induct
    (fun e st =>
      (ascribe_types e st).2 = [] →
      (∀ t ∈ leaf_types (ascribe_types e st).1, t ≠ .error) →
      (ascribe_types e st).1.ty ≠ .error)
    (fun cond body seg st =>
      (ascribe_loop cond body seg st).2 = [] →
      (∀ t ∈ leaf_types (ascribe_loop cond body seg st).1, t ≠ .error) →
      (ascribe_loop cond body seg st).1.ty ≠ .error)
    (fun exprs seg st =>
      (ascribe_block exprs seg st).2 = [] →
      (∀ t ∈ leaf_types (ascribe_block exprs seg st).1, t ≠ .error) →
      (ascribe_block exprs seg st).1.ty ≠ .error)
    (fun l st =>
      (ascribe_block_list l st).2 = [] →
      ∀ te ∈ (ascribe_block_list l st).1,
        (∀ t ∈ leaf_types te, t ≠ .error) → te.ty ≠ .error)
    (fun c thenB elseB seg st =>
      (ascribe_if c thenB elseB seg st).2 = [] →
      (∀ t ∈ leaf_types (ascribe_if c thenB elseB seg st).1, t ≠ .error) →
      (ascribe_if c thenB elseB seg st).1.ty ≠ .error)
    (fun l op r seg st =>
      (ascribe_binary l op r seg st).2 = [] →
      (∀ t ∈ leaf_types (ascribe_binary l op r seg st).1, t ≠ .error) →
      (ascribe_binary l op r seg st).1.ty ≠ .error)
    ?_ ?_ ?_ ?_ ?_ ?_ ?_ ?_ ?_ ?_ ?_ ?_ ?_ ?_ ?_ ?_ ?_
  -- literal
  · intro v seg st _ _
    rw [ascribe_types_literal_eq]
    cases v <;> simp [ascribe_literal, TypedExpr.ty]
  -- binary dispatch
  · intro l op r seg state ih
    rw [ascribe_types_binary_eq]
    exact ih
  -- if dispatch
  · intro c t e seg state ih
    rw [ascribe_types_if_eq]
    exact ih
  -- block dispatch
  · intro exprs seg state ih
    rw [ascribe_types_block_eq]
    exact ih
  -- while dispatch
  · intro c body seg state ih
    rw [ascribe_types_while_eq]
    exact ih
  -- loop dispatch
  · intro body seg state ih
    rw [ascribe_types_loop_eq]
    exact ih
  -- continue
  · intro seg state _ _
    rw [ascribe_types_continue_eq]
    simp [ascribe_continue_or_break, TypedExpr.ty]
  -- break
  · intro seg state _ _
    rw [ascribe_types_break_eq]
    simp [ascribe_continue_or_break, TypedExpr.ty]
  -- ascribe_loop
  · intro cond body seg state _ _ _ _
    cases cond with
    | none =>
      rw [ascribe_loop_none_eq]
      simp [TypedExpr.ty]
    | some c =>
      rw [ascribe_loop_some_eq]
      simp [TypedExpr.ty]
  -- ascribe_block
  · intro exprs seg state ih hdelta hleaves
    rw [ascribe_block_eq] at hdelta hleaves ⊢
    dsimp only [TypedExpr.ty] at hdelta hleaves ⊢
    simp only [leaf_types, leaf_types_kind] at hleaves
    rcases hlast : (ascribe_block_list exprs state).1.getLast? with _ | te
    · simp
    · have hmem : te ∈ (ascribe_block_list exprs state).1 :=
        List.mem_of_mem_getLast? (show te ∈ (ascribe_block_list exprs state).1.getLast? by
          rw [hlast]; rfl)
      have hl : ∀ t ∈ leaf_types te, t ≠ .error :=
        fun t ht => hleaves t (leaf_types_list_subset _ te hmem t ht)
      simpa using ih hdelta te hmem hl
  -- block_list nil
  · intro st _ te hte _
    rw [ascribe_block_list_nil_eq] at hte
    simp at hte
  -- block_list singleton
  · intro e state ih hdelta te hte hleaf
    rw [ascribe_block_list_one_eq] at hdelta hte
    dsimp only at hdelta hte
    rw [List.mem_singleton] at hte
    subst hte
    exact ih hdelta hleaf
  -- block_list cons
  · intro e rest state hne ih1 ih2 hdelta te hte hleaf
    obtain ⟨e2, rest', rfl⟩ : ∃ e2 rest', rest = e2 :: rest' := by
      cases rest with
      | nil => exact absurd rfl hne
      | cons a b => exact ⟨a, b, rfl⟩
    rw [ascribe_block_list_cons_eq] at hdelta hte
    dsimp only at hdelta hte
    rw [List.append_eq_nil] at hdelta
    rcases List.mem_cons.1 hte with rfl | hmem
    · exact ih1 hdelta.1 hleaf
    · exact ih2 hdelta.2 te hmem hleaf
  -- ascribe_if, local_type, convert_many succeeds
  · intro c thenB elseB seg state
    cases elseB with
    | none =>
      intro then_res else_res else_ty hlocal ty hconv ihc ihth _
      have hconv2 : convert_many [(ascribe_types thenB state).1.ty, Ty.unit] =
          some ty := hconv
      unfold ascribe_if
      dsimp only
      rw [if_pos hlocal, hconv2]
      dsimp only [TypedExpr.ty]
      intro hdelta hleaves
      simp only [List.append_nil, List.append_eq_nil] at hdelta
      simp only [leaf_types, leaf_types_kind, leaf_types_convert_getD,
        Option.map_none', Option.map_some', List.append_nil] at hleaves
      have hthl : ∀ t ∈ leaf_types (ascribe_types thenB state).1, t ≠ .error :=
        fun t ht => hleaves t (List.mem_append_right _ ht)
      have hty_then : (ascribe_types thenB state).1.ty ≠ .error :=
        ihth hdelta.2 hthl
      rcases convert_many_pair _ _ _ hconv2 with h | h
      · rw [h]
        exact hty_then
      · rw [h]
        simp
    | some e0 =>
      intro then_res else_res else_ty hlocal ty hconv ihc ihth ihe
      have hconv2 : convert_many [(ascribe_types thenB state).1.ty,
          (ascribe_types e0 state).1.ty] = some ty := hconv
      have ihe2 : (ascribe_types e0 state).2 = [] →
          (∀ t ∈ leaf_types (ascribe_types e0 state).1, t ≠ .error) →
          (ascribe_types e0 state).1.ty ≠ .error := ihe
      unfold ascribe_if
      dsimp only
      rw [if_pos hlocal, hconv2]
      dsimp only [TypedExpr.ty]
      intro hdelta hleaves
      simp only [List.append_eq_nil] at hdelta
      simp only [leaf_types, leaf_types_kind, leaf_types_convert_getD,
        Option.map_none', Option.map_some'] at hleaves
      have hthl : ∀ t ∈ leaf_types (ascribe_types thenB state).1, t ≠ .error :=
        fun t ht =>
          hleaves t (List.mem_append_left _ (List.mem_append_right _ ht))
      have hell : ∀ t ∈ leaf_types (ascribe_types e0 state).1, t ≠ .error :=
        fun t ht => hleaves t (List.mem_append_right _ ht)
      have hty_then : (ascribe_types thenB state).1.ty ≠ .error :=
        ihth hdelta.1.2 hthl
      have hty_else : (ascribe_types e0 state).1.ty ≠ .error :=
        ihe2 hdelta.2 hell
      rcases convert_many_pair _ _ _ hconv2 with h | h
      · rw [h]
        exact hty_then
      · rw [h]
        exact hty_else
  -- ascribe_if, local_type, convert_many fails: the delta is nonempty
  · intro c thenB elseB seg state
    cases elseB with
    | none =>
      intro then_res else_res else_ty hlocal hconv _ _ _
      have hconv2 : convert_many [(ascribe_types thenB state).1.ty, Ty.unit] =
          none := hconv
      unfold ascribe_if
      dsimp only
      rw [if_pos hlocal, hconv2]
      dsimp only
      intro hdelta _
      simp at hdelta
    | some e0 =>
      intro then_res else_res else_ty hlocal hconv _ _ _
      have hconv2 : convert_many [(ascribe_types thenB state).1.ty,
          (ascribe_types e0 state).1.ty] = none := hconv
      unfold ascribe_if
      dsimp only
      rw [if_pos hlocal, hconv2]
      dsimp only
      intro hdelta _
      simp at hdelta
  -- ascribe_if without local_type: typed Unit
  · intro c thenB elseB seg state hlocal _ _ _
    unfold ascribe_if
    dsimp only
    rw [if_neg hlocal]
    dsimp only [TypedExpr.ty]
    intro _ _
    simp
  -- ascribe_binary
  · intro l op r seg state ihl ihr
    unfold ascribe_binary
    dsimp only
    rcases hm : (get_methods (ascribe_types l state).1.ty
        (name_operator_method op)).bind
        (fun methods => find_operand_implementation methods
          (ascribe_types r state).1) with _ | m
    · dsimp only
      intro hdelta _
      simp at hdelta
    · dsimp only [TypedExpr.ty]
      intro hdelta hleaves
      rcases Option.bind_eq_some.1 hm with ⟨ms, hms, hfind⟩
      exact get_methods_return_ne_error _ _ ms hms m
        (find_operand_implementation_mem ms _ m hfind)

/-- C3 (counterexample): ascribing `true + true` (with the value observed)
yields a tree whose leaves are all typed `Bool` — not `Error` — yet whose
root is typed `Error`, because no operator `plus` exists between `Bool`
and `Bool` (`ascribe_binary`, `steps/typing.rs` lines 668–680).  The
claimed leaf-to-root propagation therefore needs the proviso that
ascription emitted no diagnostic. -/
theorem ascribe_types_leaf_root_counterexample :
    (∀ t ∈ leaf_types (ascribe_types
        (.binary (.literal (.bool true) (0, 1)) .Plus
          (.literal (.bool true) (2, 3)) (0, 3))
        ⟨0, 0, true, false⟩).1, t ≠ .error) ∧
      (ascribe_types
        (.binary (.literal (.bool true) (0, 1)) .Plus
          (.literal (.bool true) (2, 3)) (0, 3))
        ⟨0, 0, true, false⟩).1.ty = .error := by
  rw [ascribe_types_binary_eq]
  unfold ascribe_binary
  simp only [ascribe_types_literal_eq]
  simp [ascribe_literal, name_operator_method, get_methods,
    find_operand_implementation, TypedExpr.ty, leaf_types, leaf_types_kind,
    leaf_types_list]

/-- C3 (amended): for every expression whose ascription emitted no
diagnostic, if every leaf of the produced `TypedExpr` tree has a type
different from `Error`, then the type of the root is also different from
`Error`.  (Without the no-diagnostic proviso the property fails, e.g. on
an undefined operator, which types its node `Error` over non-`Error`
leaves.) -/
theorem ascribe_types_leaf_root_no_error (e : MiniExpr) (st : TypingState)
    (hdelta : (ascribe_types e st).2 = [])
    (hleaves : ∀ t ∈ leaf_types (ascribe_types e st).1, t ≠ .error) :
    (ascribe_types e st).1.ty ≠ .error :=
  ascribe_no_error_master.1 e st hdelta hleaves

/-- The amended C3 theorem at a concrete input: the literal `3` ascribes
with no diagnostic, an `Int` leaf and an `Int` root. -/
theorem ascribe_types_leaf_root_no_error_witness :
    (ascribe_types (.literal (.int 3) (0, 1)) ⟨0, 0, true, false⟩).1.ty ≠ .error :=
  ascribe_types_leaf_root_no_error (.literal (.int 3) (0, 1)) ⟨0, 0, true, false⟩
    (by rw [ascribe_types_literal_eq])
    (by rw [ascribe_types_literal_eq]
        simp [ascribe_literal, leaf_types, leaf_types_kind, TypedExpr.ty])

/-- C6: every `continue` and `break` is ascribed the type `Nothing`; an
occurrence outside a loop (`in_loop = false`) appends exactly one
`InvalidBreakOrContinue` diagnostic pointing at it, one inside a loop
appends none.  Consequently `continue; break` at top level yields exactly
the two diagnostics in source order, and
`loop { continue }; loop { break }` yields none and is typed `Unit`. -/
theorem ascribe_continue_break_spec :
    (∀ (seg : Seg) (st : TypingState),
      ascribe_types (.continueExpr seg) st =
        (.mk .continueK .nothing seg,
         if st.in_loop then [] else
           [⟨.invalidBreakOrContinue,
             "`continue` must be declared inside a loop",
             [⟨st.source, seg, none⟩]⟩]) ∧
      ascribe_types (.breakExpr seg) st =
        (.mk .breakK .nothing seg,
         if st.in_loop then [] else
           [⟨.invalidBreakOrContinue,
             "`break` must be declared inside a loop",
             [⟨st.source, seg, none⟩]⟩])) ∧
    (ascribe_types (.block [.continueExpr (0, 8), .breakExpr (10, 15)] (0, 15))
        ⟨0, 0, false, false⟩).2 =
      [⟨.invalidBreakOrContinue, "`continue` must be declared inside a loop",
        [⟨0, (0, 8), none⟩]⟩,
       ⟨.invalidBreakOrContinue, "`break` must be declared inside a loop",
        [⟨0, (10, 15), none⟩]⟩] ∧
    (ascribe_types (.block [.loopExpr (.continueExpr (7, 15)) (0, 17),
          .loopExpr (.breakExpr (26, 31)) (19, 33)] (0, 33))
        ⟨0, 0, false, false⟩).2 = [] ∧
    (ascribe_types (.block [.loopExpr (.continueExpr (7, 15)) (0, 17),
          .loopExpr (.breakExpr (26, 31)) (19, 33)] (0, 33))
        ⟨0, 0, false, false⟩).1.ty = .unit := by
  refine ⟨fun seg st => ⟨?_, ?_⟩, ?_, ?_, ?_⟩
  · rw [ascribe_types_continue_eq]
    rfl
  · rw [ascribe_types_break_eq]
    rfl
  · rw [ascribe_types_block_eq, ascribe_block_eq, ascribe_block_list_cons_eq,
      ascribe_block_list_one_eq, ascribe_types_continue_eq,
      ascribe_types_break_eq]
    rfl
  · rw [ascribe_types_block_eq, ascribe_block_eq, ascribe_block_list_cons_eq,
      ascribe_block_list_one_eq]
    simp only [ascribe_types_loop_eq, ascribe_loop_none_eq,
      ascribe_types_continue_eq, ascribe_types_break_eq]
    rfl
  · rw [ascribe_types_block_eq, ascribe_block_eq, ascribe_block_list_cons_eq,
      ascribe_block_list_one_eq]
    simp only [ascribe_types_loop_eq, ascribe_loop_none_eq,
      ascribe_types_continue_eq, ascribe_types_break_eq]
    rfl

/-- C4: ascribing `if` with the value observed (`local_type = true`)
unifies the branch types (with `Unit` for a missing `else`) via
`convert_many`; on success conversion nodes make both branches carry the
unified type, which is the type of the whole `if`, and no diagnostic is
appended beyond those of the subtrees; on failure one `TypeMismatch`
"`if` and `else` have incompatible types" is appended and the node is
typed `Error`.  With `local_type = false` the `if` is typed `Unit`
regardless of the branch types. -/
theorem ascribe_if_local_type_spec :
    (∀ (c thenB : MiniExpr) (elseB : Option MiniExpr) (seg : Seg)
        (st : TypingState) (u : Ty),
      st.local_type = true →
      convert_many [(ascribe_types thenB st).1.ty,
        (elseB.map (fun e => (ascribe_types e st).1.ty)).getD .unit] = some u →
      (ascribe_if c thenB elseB seg st).1.ty = u ∧
      (∃ cond2 then2 oth2,
        (ascribe_if c thenB elseB seg st).1.kind =
          .conditional cond2 then2 oth2 ∧
        then2.ty = u ∧
        (∀ o ∈ oth2, TypedExpr.ty o = u) ∧
        oth2.isSome = elseB.isSome) ∧
      (ascribe_if c thenB elseB seg st).2 =
        (ascribe_types c st).2 ++
          (coerce_condition (ascribe_types c st).1 st).2 ++
          (ascribe_types thenB st).2 ++
          ((elseB.map (fun e => (ascribe_types e st).2)).getD [])) ∧
    (∀ (c thenB : MiniExpr) (elseB : Option MiniExpr) (seg : Seg)
        (st : TypingState),
      st.local_type = true →
      convert_many [(ascribe_types thenB st).1.ty,
        (elseB.map (fun e => (ascribe_types e st).1.ty)).getD .unit] = none →
      (ascribe_if c thenB elseB seg st).1.ty = .error ∧
      ∃ obs, (ascribe_if c thenB elseB seg st).2 =
        (ascribe_types c st).2 ++
          (coerce_condition (ascribe_types c st).1 st).2 ++
          (ascribe_types thenB st).2 ++
          ((elseB.map (fun e => (ascribe_types e st).2)).getD []) ++
          [⟨.typeMismatch, "`if` and `else` have incompatible types", obs⟩]) ∧
    (∀ (c thenB : MiniExpr) (elseB : Option MiniExpr) (seg : Seg)
        (st : TypingState),
      st.local_type = false →
      (ascribe_if c thenB elseB seg st).1.ty = .unit) := by
  refine ⟨?_, ?_, ?_⟩
  · intro c thenB elseB seg st u hlocal hconv
    cases elseB with
    | none =>
      have hconv2 : convert_many [(ascribe_types thenB st).1.ty, Ty.unit] =
          some u := hconv
      have hres : ascribe_if c thenB none seg st =
          (.mk (.conditional (coerce_condition (ascribe_types c st).1 st).1
              ((convert_expression (ascribe_types thenB st).1 u).getD
                (ascribe_types thenB st).1) none) u seg,
           (ascribe_types c st).2 ++
             (coerce_condition (ascribe_types c st).1 st).2 ++
             (ascribe_types thenB st).2 ++ []) := by
        unfold ascribe_if
        dsimp only
        rw [if_pos hlocal, hconv2]
        rfl
      rw [hres]
      refine ⟨rfl, ⟨_, _, none, rfl, ?_, ?_, rfl⟩, rfl⟩
      · exact convert_expression_getD_ty _ _
          (Or.symm (Or.imp id Eq.symm
            ((convert_many_pair_desc _ _ _ hconv2).1.symm)))
      · intro o ho
        simp at ho
    | some e0 =>
      have hconv2 : convert_many [(ascribe_types thenB st).1.ty,
          (ascribe_types e0 st).1.ty] = some u := hconv
      have hres : ascribe_if c thenB (some e0) seg st =
          (.mk (.conditional (coerce_condition (ascribe_types c st).1 st).1
              ((convert_expression (ascribe_types thenB st).1 u).getD
                (ascribe_types thenB st).1)
              (some ((convert_expression (ascribe_types e0 st).1 u).getD
                (ascribe_types e0 st).1))) u seg,
           (ascribe_types c st).2 ++
             (coerce_condition (ascribe_types c st).1 st).2 ++
             (ascribe_types thenB st).2 ++ (ascribe_types e0 st).2) := by
        unfold ascribe_if
        dsimp only
        rw [if_pos hlocal, hconv2]
        rfl
      rw [hres]
      have hdesc := convert_many_pair_desc _ _ _ hconv2
      refine ⟨rfl, ⟨_, _, _, rfl, ?_, ?_, rfl⟩, rfl⟩
      · exact convert_expression_getD_ty _ _
          (Or.symm (Or.imp id Eq.symm hdesc.1.symm))
      · intro o ho
        rw [Option.mem_def, Option.some_inj] at ho
        subst ho
        exact convert_expression_getD_ty _ _
          (Or.symm (Or.imp id Eq.symm hdesc.2.symm))
  · intro c thenB elseB seg st hlocal hconv
    cases elseB with
    | none =>
      have hconv2 : convert_many [(ascribe_types thenB st).1.ty, Ty.unit] =
          none := hconv
      have hres : ascribe_if c thenB none seg st =
          (.mk (.conditional (coerce_condition (ascribe_types c st).1 st).1
              (ascribe_types thenB st).1 none) .error seg,
           (ascribe_types c st).2 ++
             (coerce_condition (ascribe_types c st).1 st).2 ++
             (ascribe_types thenB st).2 ++ [] ++
             [⟨.typeMismatch, "`if` and `else` have incompatible types",
               [⟨st.source, thenB.segment,
                 some ("Found `" ++ (ascribe_types thenB st).1.ty.display ++
                   "`")⟩]⟩]) := by
        unfold ascribe_if
        dsimp only
        rw [if_pos hlocal, hconv2]
        rfl
      rw [hres]
      exact ⟨rfl, _, rfl⟩
    | some e0 =>
      have hconv2 : convert_many [(ascribe_types thenB st).1.ty,
          (ascribe_types e0 st).1.ty] = none := hconv
      have hres : ascribe_if c thenB (some e0) seg st =
          (.mk (.conditional (coerce_condition (ascribe_types c st).1 st).1
              (ascribe_types thenB st).1 (some (ascribe_types e0 st).1))
            .error seg,
           (ascribe_types c st).2 ++
             (coerce_condition (ascribe_types c st).1 st).2 ++
             (ascribe_types thenB st).2 ++ (ascribe_types e0 st).2 ++
             [⟨.typeMismatch, "`if` and `else` have incompatible types",
               [⟨st.source, thenB.segment,
                 some ("Found `" ++ (ascribe_types thenB st).1.ty.display ++
                   "`")⟩,
                ⟨st.source, (ascribe_types e0 st).1.segment,
                 some ("Found `" ++ (ascribe_types e0 st).1.ty.display ++
                   "`")⟩]⟩]) := by
        unfold ascribe_if
        dsimp only
        rw [if_pos hlocal, hconv2]
        rfl
      rw [hres]
      exact ⟨rfl, _, rfl⟩
  · intro c thenB elseB seg st hlocal
    unfold ascribe_if
    dsimp only
    rw [if_neg (by rw [hlocal]; exact Bool.false_ne_true)]
    rfl

/-- The C4 theorem at concrete inputs: `if true { 1 } else { 2 }` with the
value observed is typed `Int`, and without it is typed `Unit`. -/
theorem ascribe_if_local_type_spec_witness :
    ((1 : Nat) = 1 ∧
      convert_many [(ascribe_types (.literal (.int 1) (2, 3))
          ⟨0, 0, true, false⟩).1.ty,
        (((some (.literal (.int 2) (4, 5)) : Option MiniExpr)).map
          (fun e => (ascribe_types e ⟨0, 0, true, false⟩).1.ty)).getD
          .unit] = some .int) ∧
    (ascribe_if (.literal (.bool true) (0, 1)) (.literal (.int 1) (2, 3))
        (some (.literal (.int 2) (4, 5))) (0, 5) ⟨0, 0, true, false⟩).1.ty =
      .int ∧
    (ascribe_if (.literal (.bool true) (0, 1)) (.literal (.int 1) (2, 3))
        (some (.literal (.int 2) (4, 5))) (0, 5) ⟨0, 0, false, false⟩).1.ty =
      .unit := by
  have hconv : convert_many [(ascribe_types (.literal (.int 1) (2, 3))
      (⟨0, 0, true, false⟩ : TypingState)).1.ty,
      (((some (.literal (.int 2) (4, 5)) : Option MiniExpr)).map
        (fun e => (ascribe_types e
          (⟨0, 0, true, false⟩ : TypingState)).1.ty)).getD .unit] =
      some .int := by
    simp only [Option.map_some', Option.getD_some, ascribe_types_literal_eq]
    rfl
  exact ⟨⟨rfl, hconv⟩,
    (ascribe_if_local_type_spec.1 (.literal (.bool true) (0, 1))
      (.literal (.int 1) (2, 3)) (some (.literal (.int 2) (4, 5))) (0, 5)
      ⟨0, 0, true, false⟩ .int rfl hconv).1,
    ascribe_if_local_type_spec.2.2 (.literal (.bool true) (0, 1))
      (.literal (.int 1) (2, 3)) (some (.literal (.int 2) (4, 5))) (0, 5)
      ⟨0, 0, false, false⟩ rfl⟩

/-- `pluralize` from `steps/typing/function.rs` (lines 960–966). -/
def pluralize (count : Nat) (singular plural : String) : String :=
  if count = 1 then singular else plural

/-- The arity-mismatch message `type_call` formats (`function.rs` lines
383–389): the noun agrees with the parameter count and the verb with the
argument count through `pluralize`. -/
def arity_mismatch_message (nparams nargs : Nat) : String :=
  "This function takes " ++ toString nparams ++ " " ++
    pluralize nparams "argument" "arguments" ++ " but " ++
    toString nargs ++ " " ++ pluralize nargs "was" "were" ++ " supplied"

/-- `diagnose_arg_mismatch` from `function.rs` (lines 857–888), for a
parameter without a declaration location (the embedded fragment's
methods are native). -/
def diagnose_arg_mismatch (source : Nat) (param : Ty) (arg : TypedExpr) :
    Diagnostic :=
  ⟨.typeMismatch, "Type mismatch",
   [⟨source, arg.segment,
     some ("Expected `" ++ param.display ++ "`, found `" ++
       arg.ty.display ++ "`")⟩]⟩

/-- `type_call` from `function.rs` (lines 350–494), for a symbol already
resolved to a monomorphic function type with the given parameter and
return types (the generics bounds of lines 399–484 instantiate to
nothing in that case).  On an arity mismatch (lines 379–412) it pushes
one `TypeMismatch` diagnostic with the formatted message and a
"Function is called here" observation at the call site, then ascribes the
arguments and returns the `Error` type; otherwise (lines 413–493) each
argument is ascribed and converted to its parameter type, reporting a
type mismatch per unconvertible argument, and the function's return type
is returned. -/
def type_call (parameters : List Ty) (return_type : Ty)
    (arguments : List MiniExpr) (call_seg : Seg) (st : TypingState) :
    (List TypedExpr × Ty) × List Diagnostic :=
  if parameters.length ≠ arguments.length then
    let args := arguments.map (fun e => ascribe_types e st)
    ((args.map (·.1), .error),
     [⟨.typeMismatch,
       arity_mismatch_message parameters.length arguments.length,
       [⟨st.source, call_seg, some "Function is called here"⟩]⟩] ++
       (args.map (·.2)).flatten)
  else
    let casted := (parameters.zip arguments).map (fun pa =>
      let arg := ascribe_types pa.2 st
      match convert_expression arg.1 pa.1 with
      | some a => (a, arg.2)
      | none => (arg.1, arg.2 ++ [diagnose_arg_mismatch st.source pa.1 arg.1]))
    ((casted.map (·.1), return_type), (casted.map (·.2)).flatten)

/-- C5 (counterexample): calling a two-parameter function with one
argument produces the message "This function takes 2 arguments but 1 was
supplied" — the verb agrees with the argument count through `pluralize`
(`function.rs` line 388), so the claimed fixed form "… but M were
supplied" does not hold at M = 1. -/
theorem type_call_arity_verb_counterexample :
    (type_call [.int, .int] .int [.literal (.int 1) (0, 1)] (0, 10)
        ⟨0, 0, true, false⟩).2 =
      [⟨.typeMismatch, "This function takes 2 arguments but 1 was supplied",
        [⟨0, (0, 10), some "Function is called here"⟩]⟩] ∧
      "This function takes 2 arguments but 1 was supplied" ≠
        "This function takes 2 arguments but 1 were supplied" := by
  constructor
  · unfold type_call
    rw [if_pos (by decide)]
    simp only [List.map_cons, List.map_nil, ascribe_types_literal_eq]
    rfl
  · decide

/-- C5 (amended): whenever the supplied argument count M differs from the
declared parameter count N, `type_call` types the call `Error` and the
appended diagnostics are exactly one `TypeMismatch` whose message is
"This function takes N argument(s) but M was/were supplied" — the noun
agreeing in number with N and the verb with M — carrying a "Function is
called here" observation at the call site, followed only by the
diagnostics of the argument subtrees. -/
theorem type_call_arity_mismatch_spec (parameters : List Ty)
    (return_type : Ty) (arguments : List MiniExpr) (call_seg : Seg)
    (st : TypingState)
    (hne : parameters.length ≠ arguments.length) :
    (type_call parameters return_type arguments call_seg st).1.2 =
      .error ∧
    (type_call parameters return_type arguments call_seg st).2 =
      ⟨.typeMismatch,
        arity_mismatch_message parameters.length arguments.length,
        [⟨st.source, call_seg, some "Function is called here"⟩]⟩ ::
        ((arguments.map (fun e => (ascribe_types e st).2)).flatten) ∧
    arity_mismatch_message parameters.length arguments.length =
      "This function takes " ++ toString parameters.length ++ " " ++
        (if parameters.length = 1 then "argument" else "arguments") ++
        " but " ++ toString arguments.length ++ " " ++
        (if arguments.length = 1 then "was" else "were") ++ " supplied" := by
  unfold type_call
  rw [if_pos hne]
  refine ⟨rfl, ?_, rfl⟩
  dsimp only
  rw [List.map_map]
  rfl

/-- The amended C5 theorem at a concrete input: a one-parameter function
called with two arguments (the spec's own example), where the formatted
message is "This function takes 1 argument but 2 were supplied". -/
theorem type_call_arity_mismatch_spec_witness :
    ([Ty.int].length ≠
      ([.literal (.int 9) (14, 15), .literal (.int 9) (17, 18)] :
        List MiniExpr).length) ∧
    (type_call [.int] .int
        [.literal (.int 9) (14, 15), .literal (.int 9) (17, 18)]
        (7, 19) ⟨0, 0, true, false⟩).1.2 = .error ∧
    arity_mismatch_message 1 2 =
      "This function takes 1 argument but 2 were supplied" :=
  ⟨by decide,
   (type_call_arity_mismatch_spec [.int] .int
     [.literal (.int 9) (14, 15), .literal (.int 9) (17, 18)]
     (7, 19) ⟨0, 0, true, false⟩ (by decide)).1,
   by decide⟩

/-! ## Symbol collection (`steps/collect.rs`) -/

/-- `ResolutionState` from `steps/collect.rs` (lines 30–56): the module
being collected and whether `use` expressions are still accepted. -/
structure ResolutionState where
  module : Nat
  accept_imports : Bool
  deriving Repr, DecidableEq

/-- The collector's accumulating state: the unresolved-imports table
(the per-module `Imports` wrapper of `imports.rs` is not under `src/`;
its table follows `UnresolvedImports.add_unresolved_import` in
`relations.rs` lines 42–70 — an `IndexMap` from the import key, here
`(module, name)`, to the recording segment), the visit worklist and the
diagnostic sink. -/
structure CollectorState where
  imports : List ((Nat × String) × Seg)
  to_visit : List String
  diagnostics : List Diagnostic
  deriving Repr, DecidableEq

/-- `UnresolvedImports::add_unresolved_import` from `relations.rs`
(lines 63–70): `IndexMap::insert` — an existing key keeps its position
and gets the new segment, returning the shadowed one; a new key is
appended, returning `none`. -/
def add_unresolved_import : List ((Nat × String) × Seg) → (Nat × String) →
    Seg → List ((Nat × String) × Seg) × Option Seg
  | [], key, seg => ([(key, seg)], none)
  | (k, s) :: rest, key, seg =>
    if k = key then ((k, seg) :: rest, some s)
    else
      let r := add_unresolved_import rest key seg
      ((k, s) :: r.1, r.2)

/-- `SymbolCollector::add_checked_import` from `steps/collect.rs` (lines
256–286): record the import; when the insert reports a shadowed segment,
push one `ShadowedImport` diagnostic "<name> is imported twice." with a
"useless import here" observation at the shadowed `use` and a
"This statement shadows previous import" observation at the new one. -/
def add_checked_import (mod_id : Nat) (name : String) (import_seg : Seg)
    (cs : CollectorState) : CollectorState :=
  let r := add_unresolved_import cs.imports (mod_id, name) import_seg
  match r.2 with
  | some shadowed =>
    { cs with imports := r.1, diagnostics := cs.diagnostics ++ [⟨.shadowedImport, name ++ " is imported twice.", [⟨mod_id, shadowed, some "useless import here"⟩, ⟨mod_id, import_seg, some "This statement shadows previous import"⟩]⟩] }
  | none => { cs with imports := r.1 }

/-- The AST fragment walked by the collector claims (`Expr::Use`, a leaf
expression, `Expr::Binary` and `Expr::Block`). -/
inductive CollectExpr where
  | use (name : String) (segment : Seg)
  | literal (segment : Seg)
  | binary (left right : CollectExpr) (segment : Seg)
  | block (expressions : List CollectExpr) (segment : Seg)

mutual
/-- `SymbolCollector::tree_walk` from `steps/collect.rs` (lines 361–692)
on the embedded fragment: a `Use` with `accept_imports` unset pushes one
`UseBetweenExprs` diagnostic and returns early (lines 369–376); an
accepted `Use` pushes its name onto `to_visit` and records the import
through `add_checked_import` (`collect_symbol_import`, lines 289–314),
also returning early; every other expression walks its children and then
clears `accept_imports` (line 691). -/
def tree_walk : ResolutionState → CollectExpr → CollectorState →
    ResolutionState × CollectorState
  | state, .use name seg, cs =>
    if !state.accept_imports then
      (state, { cs with diagnostics := cs.diagnostics ++ [⟨.useBetweenExprs, "Unexpected use statement between expressions. Use statements must be at the top of the environment.", [⟨state.module, seg, none⟩]⟩] })
    else
      (state, add_checked_import state.module name seg { cs with to_visit := cs.to_visit ++ [name] })
  | state, .literal _, cs => ({ state with accept_imports := false }, cs)
  | state, .binary l r _, cs =>
    let p1 := tree_walk state l cs
    let p2 := tree_walk p1.1 r p1.2
    ({ p2.1 with accept_imports := false }, p2.2)
  | state, .block exprs _, cs =>
    let p := tree_walk_list state exprs cs
    ({ p.1 with accept_imports := false }, p.2)

/-- The collector's iteration over a block's expressions (lines 550–552),
threading the mutable state through in order. -/
def tree_walk_list : ResolutionState → List CollectExpr → CollectorState →
    ResolutionState × CollectorState
  | state, [], cs => (state, cs)
  | state, e :: rest, cs =>
    let p := tree_walk state e cs
    tree_walk_list p.1 rest p.2
end

theorem add_unresolved_import_snd (l : List ((Nat × String) × Seg))
    (key : Nat × String) (seg : Seg) :
    (add_unresolved_import l key seg).2 = l.lookup key := by
  induction l with
  | nil => rfl
  | cons a rest ih =>
    obtain ⟨k, s⟩ := a
    rw [add_unresolved_import, List.lookup]
    by_cases hk : k = key
    · subst hk
      simp
    · have hkb : (key == k) = false :=
        beq_eq_false_iff_ne.2 (fun hx => hk hx.symm)
      simp [hk, hkb, ih]

theorem add_unresolved_import_fresh (l : List ((Nat × String) × Seg))
    (key : Nat × String) (seg : Seg) (h : l.lookup key = none) :
    add_unresolved_import l key seg = (l ++ [(key, seg)], none) := by
  induction l with
  | nil => rfl
  | cons a rest ih =>
    obtain ⟨k, s⟩ := a
    rw [List.lookup] at h
    by_cases hk : k = key
    · subst hk
      simp at h
    · have hkb : (key == k) = false :=
        beq_eq_false_iff_ne.2 (fun hx => hk hx.symm)
      rw [hkb] at h
      simp [add_unresolved_import, hk, ih h]

theorem add_unresolved_import_dup (l : List ((Nat × String) × Seg))
    (key : Nat × String) (seg : Seg) (s₀ : Seg)
    (h : l.lookup key = some s₀) :
    (add_unresolved_import l key seg).1.map Prod.fst = l.map Prod.fst ∧
      (add_unresolved_import l key seg).1.lookup key = some seg := by
  induction l with
  | nil => simp [List.lookup] at h
  | cons a rest ih =>
    obtain ⟨k, s⟩ := a
    by_cases hk : k = key
    · subst hk
      simp [add_unresolved_import, List.lookup]
    · have hkb : (key == k) = false :=
        beq_eq_false_iff_ne.2 (fun hx => hk hx.symm)
      rw [List.lookup, hkb] at h
      have hr := ih h
      simp [add_unresolved_import, List.lookup, hk, hkb, hr.1, hr.2]

/-- C8: a `use` is accepted only while `accept_imports` is still set.  A
`use` met with the flag cleared appends exactly one `UseBetweenExprs`
diagnostic and is discarded — the imports table and the visit worklist
are unchanged.  An accepted `use` pushes its name and records the
import: a fresh `(module, name)` key is appended with no diagnostic,
while a repeated key keeps its table position with the new segment
replacing the old (no entry is added) and one `ShadowedImport`
"<name> is imported twice." is pushed.  Walking any non-`use` expression
clears `accept_imports`, so every expression after it sees the flag
down.  In particular a block whose `use` follows another expression
reports it and records nothing, a leading `use` is recorded, and a
repeated leading `use` is reported as shadowed. -/
theorem tree_walk_use_between_exprs :
    (∀ (state : ResolutionState) (name : String) (seg : Seg)
        (cs : CollectorState),
      state.accept_imports = false →
      (tree_walk state (.use name seg) cs).2.imports = cs.imports ∧
      (tree_walk state (.use name seg) cs).2.to_visit = cs.to_visit ∧
      (tree_walk state (.use name seg) cs).2.diagnostics =
        cs.diagnostics ++
          [⟨.useBetweenExprs, "Unexpected use statement between expressions. Use statements must be at the top of the environment.", [⟨state.module, seg, none⟩]⟩] ∧
      (tree_walk state (.use name seg) cs).1 = state) ∧
    (∀ (state : ResolutionState) (name : String) (seg : Seg)
        (cs : CollectorState),
      state.accept_imports = true →
      cs.imports.lookup (state.module, name) = none →
      (tree_walk state (.use name seg) cs).2.imports =
        cs.imports ++ [((state.module, name), seg)] ∧
      (tree_walk state (.use name seg) cs).2.to_visit =
        cs.to_visit ++ [name] ∧
      (tree_walk state (.use name seg) cs).2.diagnostics = cs.diagnostics ∧
      (tree_walk state (.use name seg) cs).1 = state) ∧
    (∀ (state : ResolutionState) (name : String) (seg : Seg)
        (cs : CollectorState) (s₀ : Seg),
      state.accept_imports = true →
      cs.imports.lookup (state.module, name) = some s₀ →
      (tree_walk state (.use name seg) cs).2.imports.map Prod.fst =
        cs.imports.map Prod.fst ∧
      (tree_walk state (.use name seg) cs).2.imports.lookup
        (state.module, name) = some seg ∧
      (tree_walk state (.use name seg) cs).2.to_visit =
        cs.to_visit ++ [name] ∧
      (tree_walk state (.use name seg) cs).2.diagnostics =
        cs.diagnostics ++
          [⟨.shadowedImport, name ++ " is imported twice.",
            [⟨state.module, s₀, some "useless import here"⟩,
             ⟨state.module, seg,
              some "This statement shadows previous import"⟩]⟩] ∧
      (tree_walk state (.use name seg) cs).1 = state) ∧
    (∀ (state : ResolutionState) (e : CollectExpr) (cs : CollectorState),
      (∀ name seg, e ≠ .use name seg) →
      (tree_walk state e cs).1.accept_imports = false) ∧
    (tree_walk ⟨0, true⟩
        (.block [.literal (0, 3), .use "foo" (5, 12)] (0, 12))
        ⟨[], [], []⟩).2 =
      ⟨[], [],
       [⟨.useBetweenExprs, "Unexpected use statement between expressions. Use statements must be at the top of the environment.", [⟨0, (5, 12), none⟩]⟩]⟩ ∧
    (tree_walk ⟨0, true⟩
        (.block [.use "foo" (0, 7), .literal (9, 12)] (0, 12))
        ⟨[], [], []⟩).2 = ⟨[((0, "foo"), (0, 7))], ["foo"], []⟩ ∧
    (tree_walk ⟨0, true⟩
        (.block [.use "foo" (0, 7), .use "foo" (9, 16)] (0, 16))
        ⟨[], [], []⟩).2 =
      ⟨[((0, "foo"), (9, 16))], ["foo", "foo"],
       [⟨.shadowedImport, "foo is imported twice.",
         [⟨0, (0, 7), some "useless import here"⟩,
          ⟨0, (9, 16), some "This statement shadows previous import"⟩]⟩]⟩ := by
  refine ⟨?_, ?_, ?_, ?_, ?_, ?_, ?_⟩
  · intro state name seg cs h
    rw [tree_walk, if_pos (by rw [h]; rfl)]
    exact ⟨rfl, rfl, rfl, rfl⟩
  · intro state name seg cs ha hfresh
    rw [tree_walk, if_neg (by rw [ha]; simp)]
    unfold add_checked_import
    dsimp only
    rw [add_unresolved_import_fresh _ _ _ hfresh]
    exact ⟨rfl, rfl, rfl, rfl⟩
  · intro state name seg cs s₀ ha hdup
    have hkeys := add_unresolved_import_dup cs.imports (state.module, name)
      seg s₀ hdup
    have hsnd := add_unresolved_import_snd cs.imports (state.module, name) seg
    rw [hdup] at hsnd
    rw [tree_walk, if_neg (by rw [ha]; simp)]
    unfold add_checked_import
    dsimp only
    rw [hsnd]
    exact ⟨hkeys.1, hkeys.2, rfl, rfl, rfl⟩
  · intro state e cs hne
    cases e with
    | use name seg => exact absurd rfl (hne name seg)
    | literal seg => rfl
    | binary l r seg => rfl
    | block exprs seg => rfl
  · rfl
  · rfl
  · rfl

/-- The C8 theorem at concrete inputs: a `use` met with `accept_imports`
cleared leaves the imports table empty and appends the `UseBetweenExprs`
diagnostic; an accepted fresh `use` records its entry silently. -/
theorem tree_walk_use_between_exprs_witness :
    ((⟨0, false⟩ : ResolutionState).accept_imports = false ∧
      (tree_walk ⟨0, false⟩ (.use "bar" (5, 9)) ⟨[], [], []⟩).2.imports =
        [] ∧
      (tree_walk ⟨0, false⟩ (.use "bar" (5, 9)) ⟨[], [], []⟩).2.diagnostics =
        [⟨.useBetweenExprs, "Unexpected use statement between expressions. Use statements must be at the top of the environment.", [⟨0, (5, 9), none⟩]⟩]) ∧
    (([] : List ((Nat × String) × Seg)).lookup (0, "bar") = none ∧
      (tree_walk ⟨0, true⟩ (.use "bar" (5, 9)) ⟨[], [], []⟩).2.imports =
        [((0, "bar"), (5, 9))]) :=
  ⟨⟨rfl,
    (tree_walk_use_between_exprs.1 ⟨0, false⟩ "bar" (5, 9) ⟨[], [], []⟩
      rfl).1,
    (tree_walk_use_between_exprs.1 ⟨0, false⟩ "bar" (5, 9) ⟨[], [], []⟩
      rfl).2.2.1⟩,
   ⟨rfl,
    (tree_walk_use_between_exprs.2.1 ⟨0, true⟩ "bar" (5, 9) ⟨[], [], []⟩
      rfl rfl).1⟩⟩
